import Mathlib

/-!
Shallow embedding of `src/script.js` (the dashdash utilization dashboard) and
proofs about its data-shaping pipeline: the normalizer, the date-range filter,
the aggregator (`computeCards`/`round`), the sorter (`sortData`), the chart and
table adapters, and the apply-filters orchestration.

Modelling conventions:
* JavaScript numbers are modelled exactly (`JSNum`: NaN, ±Infinity, or a
  rational); IEEE-754 double rounding is not modelled.
* Record fields hold scalar JSON values plus `undefined` (`JSValue`).
* `new Date(s)` string parsing follows the ECMAScript Date Time String Format
  (`YYYY[-MM[-DD]]` optionally followed by `THH:MM[:SS]`); fractional seconds,
  timezone designators and engine-specific legacy formats are not modelled, and
  date-only and date-time strings are interpreted at one fixed UTC offset.
  Timestamps are milliseconds since the epoch.
* `Array.prototype.sort` is modelled as a stable insertion sort processing the
  array left to right; ECMAScript guarantees the stable order only for
  consistent comparators (for inconsistent comparators the order is
  implementation-defined, and this embedding fixes one stable algorithm).
  A comparator result of NaN is treated as 0, as in ECMAScript SortCompare.
* DOM effects are modelled as updates to an explicit `UIState` record.
-/

namespace Dashboard

/-- JavaScript number values: NaN, the two infinities, or a finite value
(modelled as an exact rational). -/
inductive JSNum where
  | nan
  | posInf
  | negInf
  | fin (q : ℚ)
deriving DecidableEq

/-- Scalar JavaScript values that can occur as fields of fetched records:
JSON scalars plus `undefined`. -/
inductive JSValue where
  | num (n : JSNum)
  | str (s : String)
  | nullv
  | undef
  | boolv (b : Bool)
deriving DecidableEq

/-- JavaScript truthiness of a scalar value. -/
def truthy : JSValue → Bool
  | .num .nan => false
  | .num (.fin q) => q ≠ 0
  | .num _ => true
  | .str s => s ≠ ""
  | .nullv => false
  | .undef => false
  | .boolv b => b

/-- JavaScript `a || b` on scalar values. -/
def jsOr (a b : JSValue) : JSValue := if truthy a then a else b

/-- Splits a character list at every occurrence of `sep` (like
`String.prototype.split` on a one-character separator). -/
def splitOnChar (sep : Char) (cs : List Char) : List (List Char) :=
  match cs with
  | [] => [[]]
  | c :: rest =>
    let r := splitOnChar sep rest
    if c = sep then [] :: r
    else
      match r with
      | [] => [[c]]
      | h :: t => (c :: h) :: t

/-- Value of a (non-empty) decimal digit string. -/
def natOfDigits (cs : List Char) : Nat :=
  cs.foldl (fun a c => a * 10 + (c.toNat - 48)) 0

/-- Parses an unsigned decimal numeral `digits[.digits]` (either side of the
point may be empty but not both), as accepted inside `Number(string)`.
Exponent and hex forms are not modelled. -/
def parseUnsignedDec (cs : List Char) : Option ℚ :=
  match splitOnChar '.' cs with
  | [as] =>
    if as ≠ [] ∧ as.all Char.isDigit then some (natOfDigits as) else none
  | [as, bs] =>
    if (as ≠ [] ∨ bs ≠ []) ∧ as.all Char.isDigit ∧ bs.all Char.isDigit then
      some ((natOfDigits as : ℚ) + (natOfDigits bs : ℚ) / (10 : ℚ) ^ bs.length)
    else none
  | _ => none

/-- ECMAScript string-to-number conversion: trimmed empty string is 0,
`Infinity` forms are infinite, decimal numerals are parsed, anything else
is NaN. -/
def parseNumericString (s : String) : JSNum :=
  let cs := ((s.data.dropWhile Char.isWhitespace).reverse.dropWhile
    Char.isWhitespace).reverse
  if cs = [] then .fin 0
  else if cs = "Infinity".data ∨ cs = "+Infinity".data then .posInf
  else if cs = "-Infinity".data then .negInf
  else
    match cs with
    | '+' :: rest =>
      match parseUnsignedDec rest with
      | some q => .fin q
      | none => .nan
    | '-' :: rest =>
      match parseUnsignedDec rest with
      | some q => .fin (-q)
      | none => .nan
    | _ =>
      match parseUnsignedDec cs with
      | some q => .fin q
      | none => .nan

/-- ECMAScript `ToNumber` on scalar values (as used by `Number(x)`). -/
def toNumber : JSValue → JSNum
  | .num n => n
  | .str s => parseNumericString s
  | .nullv => .fin 0
  | .undef => .nan
  | .boolv b => .fin (if b then 1 else 0)

/-- Decimal digits of a natural number, with explicit fuel. -/
def natDigitsStr (fuel n : Nat) : List Char :=
  match fuel with
  | 0 => []
  | fuel + 1 =>
    if n < 10 then [Char.ofNat (48 + n)]
    else natDigitsStr fuel (n / 10) ++ [Char.ofNat (48 + n % 10)]

/-- Decimal string of a natural number. -/
def natToString (n : Nat) : String := String.mk (natDigitsStr (n + 1) n)

/-- Fractional decimal digits of a rational in `[0, 1)`, up to `fuel` digits.
JavaScript prints the shortest round-tripping decimal of a double; this
embedding prints the exact expansion truncated to `fuel` digits instead. -/
def fracDigits (fuel : Nat) (x : ℚ) : List Char :=
  match fuel with
  | 0 => []
  | fuel + 1 =>
    if x = 0 then []
    else
      let d := (⌊x * 10⌋).toNat
      Char.ofNat (48 + d) :: fracDigits fuel (x * 10 - (d : ℚ))

/-- Decimal string of a rational (JavaScript number-to-string, approximated
for non-integers as documented at `fracDigits`). -/
def ratToString (q : ℚ) : String :=
  let sgn := if q < 0 then "-" else ""
  let aq := |q|
  let ip := (⌊aq⌋).toNat
  let frac := aq - (ip : ℚ)
  if frac = 0 then sgn ++ natToString ip
  else sgn ++ natToString ip ++ "." ++ String.mk (fracDigits 20 frac)

/-- JavaScript number-to-string conversion. -/
def numToString : JSNum → String
  | .nan => "NaN"
  | .posInf => "Infinity"
  | .negInf => "-Infinity"
  | .fin q => ratToString q

/-- JavaScript `ToString` on scalar values (template literals, string
concatenation). -/
def JSValue.toStr : JSValue → String
  | .num n => numToString n
  | .str s => s
  | .nullv => "null"
  | .undef => "undefined"
  | .boolv b => if b then "true" else "false"

/-- JavaScript `<` on two numbers (false whenever either side is NaN). -/
def JSNum.lt : JSNum → JSNum → Bool
  | .nan, _ => false
  | _, .nan => false
  | .negInf, .negInf => false
  | .negInf, _ => true
  | _, .negInf => false
  | .posInf, _ => false
  | .fin _, .posInf => true
  | .fin a, .fin b => a < b

/-- JavaScript `+` on two numbers. -/
def JSNum.add : JSNum → JSNum → JSNum
  | .nan, _ => .nan
  | _, .nan => .nan
  | .posInf, .negInf => .nan
  | .negInf, .posInf => .nan
  | .posInf, _ => .posInf
  | _, .posInf => .posInf
  | .negInf, _ => .negInf
  | _, .negInf => .negInf
  | .fin a, .fin b => .fin (a + b)

/-- JavaScript `*` on two numbers (signed zeros not modelled). -/
def JSNum.mul : JSNum → JSNum → JSNum
  | .nan, _ => .nan
  | _, .nan => .nan
  | .posInf, .posInf => .posInf
  | .posInf, .negInf => .negInf
  | .negInf, .posInf => .negInf
  | .negInf, .negInf => .posInf
  | .posInf, .fin q => if 0 < q then .posInf else if q < 0 then .negInf else .nan
  | .fin q, .posInf => if 0 < q then .posInf else if q < 0 then .negInf else .nan
  | .negInf, .fin q => if 0 < q then .negInf else if q < 0 then .posInf else .nan
  | .fin q, .negInf => if 0 < q then .negInf else if q < 0 then .posInf else .nan
  | .fin a, .fin b => .fin (a * b)

/-- JavaScript `/` on two numbers (signed zeros not modelled; a finite value
divided by zero follows the sign of the numerator). -/
def JSNum.div : JSNum → JSNum → JSNum
  | .nan, _ => .nan
  | _, .nan => .nan
  | .posInf, .posInf => .nan
  | .posInf, .negInf => .nan
  | .negInf, .posInf => .nan
  | .negInf, .negInf => .nan
  | .posInf, .fin q => if q < 0 then .negInf else .posInf
  | .negInf, .fin q => if q < 0 then .posInf else .negInf
  | .fin _, .posInf => .fin 0
  | .fin _, .negInf => .fin 0
  | .fin a, .fin b =>
    if b = 0 then (if a = 0 then .nan else if 0 < a then .posInf else .negInf)
    else .fin (a / b)

/-- ECMAScript `Math.round`: nearest integer, ties toward positive infinity. -/
def mathRound : JSNum → JSNum
  | .nan => .nan
  | .posInf => .posInf
  | .negInf => .negInf
  | .fin q => .fin ((⌊q + 1/2⌋ : ℤ) : ℚ)

/-- Mirrors `round` (script.js line 147):
`round(n, d=2){ return Math.round(n * Math.pow(10,d))/Math.pow(10,d); }`. -/
def round (n : JSNum) (d : Nat) : JSNum :=
  JSNum.div (mathRound (JSNum.mul n (.fin ((10 : ℚ) ^ d)))) (.fin ((10 : ℚ) ^ d))

/-- Gregorian leap year test. -/
def isLeapYear (y : Int) : Bool :=
  (y % 4 == 0 && y % 100 != 0) || y % 400 == 0

/-- Number of days in a month. -/
def daysInMonth (y m : Int) : Int :=
  if m = 1 ∨ m = 3 ∨ m = 5 ∨ m = 7 ∨ m = 8 ∨ m = 10 ∨ m = 12 then 31
  else if m = 2 then (if isLeapYear y then 29 else 28)
  else 30

/-- Days since 1970-01-01 of a proleptic Gregorian calendar date. -/
def daysFromCivil (y m d : Int) : Int :=
  let yy := y - (if m ≤ 2 then 1 else 0)
  let era := Int.fdiv yy 400
  let yoe := yy - era * 400
  let mp := Int.emod (m + 9) 12
  let doy := Int.fdiv (153 * mp + 2) 5 + d - 1
  let doe := yoe * 365 + Int.fdiv yoe 4 - Int.fdiv yoe 100 + doy
  era * 146097 + doe - 719468

/-- Parses a fixed-width decimal digit field. -/
def parseDigitsN (n : Nat) (cs : List Char) : Option Nat :=
  if cs.length = n ∧ cs.all Char.isDigit then some (natOfDigits cs) else none

/-- Parses the date part `YYYY[-MM[-DD]]` of a Date Time String, rejecting
out-of-range months and days (as ECMAScript does for this format). -/
def parseDatePart (cs : List Char) : Option (Int × Int × Int) :=
  match splitOnChar '-' cs with
  | [ys] => do
    let y ← parseDigitsN 4 ys
    pure ((y : Int), 1, 1)
  | [ys, ms] => do
    let y ← parseDigitsN 4 ys
    let m ← parseDigitsN 2 ms
    if 1 ≤ m ∧ m ≤ 12 then pure ((y : Int), (m : Int), 1) else none
  | [ys, ms, ds] => do
    let y ← parseDigitsN 4 ys
    let m ← parseDigitsN 2 ms
    let d ← parseDigitsN 2 ds
    if 1 ≤ m ∧ m ≤ 12 ∧ 1 ≤ d ∧ (d : Int) ≤ daysInMonth y m then
      pure ((y : Int), (m : Int), (d : Int))
    else none
  | _ => none

/-- Seconds-of-day of validated time fields (ECMAScript also admits the
special value `24:00[:00]`). -/
def mkTimeSecs (h m s : Nat) : Option Int :=
  if (h ≤ 23 ∧ m ≤ 59 ∧ s ≤ 59) ∨ (h = 24 ∧ m = 0 ∧ s = 0) then
    some ((h : Int) * 3600 + (m : Int) * 60 + (s : Int))
  else none

/-- Parses the time part `HH:MM[:SS]` of a Date Time String. -/
def parseTimePart (cs : List Char) : Option Int :=
  match splitOnChar ':' cs with
  | [hs, ms] => do
    let h ← parseDigitsN 2 hs
    let m ← parseDigitsN 2 ms
    mkTimeSecs h m 0
  | [hs, ms, ss] => do
    let h ← parseDigitsN 2 hs
    let m ← parseDigitsN 2 ms
    let s ← parseDigitsN 2 ss
    mkTimeSecs h m s
  | _ => none

/-- Parses an ECMAScript Date Time String into a millisecond timestamp
(conventions as documented in the module header). -/
def parseTimestampStr (s : String) : Option Int :=
  match splitOnChar 'T' s.data with
  | [ds] => do
    let (y, m, d) ← parseDatePart ds
    pure (daysFromCivil y m d * 86400000)
  | [ds, ts] => do
    let (y, m, d) ← parseDatePart ds
    let secs ← parseTimePart ts
    pure (daysFromCivil y m d * 86400000 + secs * 1000)
  | _ => none

/-- A JavaScript `Date` object's time value: a millisecond timestamp, or NaN
(an Invalid Date). A `Date` object of either kind is truthy. -/
inductive DateVal where
  | invalid
  | time (t : Int)
deriving DecidableEq

/-- Models `new Date(v)`: strings are parsed as Date Time Strings, other
values are converted to a number and truncated to a millisecond timestamp
(out-of-range and non-finite values give an Invalid Date). -/
def jsNewDate : JSValue → DateVal
  | .str s =>
    match parseTimestampStr s with
    | some t => .time t
    | none => .invalid
  | v =>
    match toNumber v with
    | .fin q =>
      let t := q.num / (q.den : Int)
      if t < -8640000000000000 ∨ 8640000000000000 < t then .invalid else .time t
    | _ => .invalid

/-- Mirrors `parseDateStr` (script.js lines 112-119): returns `none` for
JavaScript `null` (falsy `dateStr`); otherwise builds `dateStr + "T" +
timeStr` when `timeStr` is truthy (with string coercion), else passes
`dateStr` itself to `new Date`. -/
def parseDateStr (dateStr timeStr : JSValue) : Option DateVal :=
  if truthy dateStr then
    if truthy timeStr then
      some (jsNewDate (.str (dateStr.toStr ++ "T" ++ timeStr.toStr)))
    else some (jsNewDate dateStr)
  else none

/-- Models `parseDateStr(...) || new Date(0)`: only a `null` result (empty
date string) is replaced by the epoch; an Invalid Date object is truthy and
is kept. -/
def dateOrEpoch : Option DateVal → DateVal
  | none => .time 0
  | some d => d

/-- JavaScript `<` on two `Date` objects (false when either is invalid,
because NaN comparisons are false). -/
def dateLt : DateVal → DateVal → Bool
  | .time a, .time b => a < b
  | _, _ => false

/-- JavaScript `aDate - bDate` as used by the sort comparator, composed with
ECMAScript SortCompare's treatment of a NaN comparator result as 0. -/
def dateSub : DateVal → DateVal → Int
  | .time a, .time b => a - b
  | _, _ => 0

/-- Canonical row shape produced by the normalizer. Fields hold the raw
JavaScript values (the normalizer does not coerce types). -/
structure Row where
  usage_date : JSValue
  usage_time : JSValue
  utilization_pct : JSValue
  system_name : JSValue
  department_name : JSValue
deriving DecidableEq

/-- Raw API record: every field may be absent. A field present with value
`undefined` behaves like an absent one in all the accesses the script
performs, so both are modelled through `getF`. -/
structure RawRecord where
  usage_date : Option JSValue
  usage_time : Option JSValue
  utilization_pct : Option JSValue
  utilization : Option JSValue
  system_name : Option JSValue
  system : Option JSValue
  department_name : Option JSValue
  department : Option JSValue
deriving DecidableEq

/-- Reading a possibly-absent property yields `undefined`. -/
def getF (o : Option JSValue) : JSValue := (o.getD .undef : JSValue)

/-- Mirrors the normalizer (script.js lines 306-312). -/
def normalize (r : RawRecord) : Row :=
  { usage_date := jsOr (getF r.usage_date) (.str "")
    usage_time := jsOr (getF r.usage_time) (.str "")
    utilization_pct :=
      if getF r.utilization_pct ≠ .undef then getF r.utilization_pct
      else jsOr (getF r.utilization) (.num (.fin 0))
    system_name := jsOr (getF r.system_name) (jsOr (getF r.system) (.str ""))
    department_name :=
      jsOr (getF r.department_name) (jsOr (getF r.department) (.str "")) }

/-- Summary values shown on the cards (script.js `computeCards`). -/
structure Summary where
  total : Nat
  avg : JSNum
  max : JSNum
  min : JSNum
  systems : Nat
  depts : Nat
deriving DecidableEq

/-- Loop state of the `for (const r of data)` loop in `computeCards`. -/
structure CardsAcc where
  systemsSet : List JSValue
  deptsSet : List JSValue
  sum : JSNum
  max : Option JSNum
  min : Option JSNum
deriving DecidableEq

/-- JavaScript `Set.prototype.add` (SameValueZero membership). -/
def setAdd (s : List JSValue) (v : JSValue) : List JSValue :=
  if v ∈ s then s else s ++ [v]

/-- One iteration of the `computeCards` loop (script.js lines 130-139). -/
def cardsStep (acc : CardsAcc) (r : Row) : CardsAcc :=
  let acc :=
    { acc with
      systemsSet := setAdd acc.systemsSet r.system_name
      deptsSet := setAdd acc.deptsSet r.department_name }
  let v := toNumber r.utilization_pct
  if v ≠ .nan then
    { acc with
      sum := acc.sum.add v
      max := match acc.max with
             | none => some v
             | some m => if JSNum.lt m v then some v else some m
      min := match acc.min with
             | none => some v
             | some m => if JSNum.lt v m then some v else some m }
  else acc

/-- Mirrors `computeCards` (script.js lines 122-146). -/
def computeCards (data : List Row) : Summary :=
  let total := data.length
  let st := data.foldl cardsStep ⟨[], [], .fin 0, none, none⟩
  let avg := if 0 < total then st.sum.div (.fin (total : ℚ)) else .fin 0
  { total := total
    avg := round avg 2
    max := match st.max with
           | none => .fin 0
           | some m => round m 2
    min := match st.min with
           | none => .fin 0
           | some m => round m 2
    systems := st.systemsSet.length
    depts := st.deptsSet.length }

/-- Sortable table columns. -/
inductive Col where
  | usage_date
  | usage_time
  | utilization_pct
  | system_name
  | department_name
deriving DecidableEq

/-- Sort directions. -/
inductive Dir where
  | asc
  | desc
deriving DecidableEq

/-- Column access `r[col]`. -/
def Row.get (r : Row) : Col → JSValue
  | .usage_date => r.usage_date
  | .usage_time => r.usage_time
  | .utilization_pct => r.utilization_pct
  | .system_name => r.system_name
  | .department_name => r.department_name

/-- Combined date+time value of a row as the comparator and the filter
compute it: `parseDateStr(r.usage_date, r.usage_time) || new Date(0)`. -/
def rowDate (r : Row) : DateVal :=
  dateOrEpoch (parseDateStr r.usage_date r.usage_time)

/-- Numeric sort key of the `utilization_pct` column: `Number` coercion with
NaN replaced by negative infinity (script.js lines 252-255). -/
def utilKey (r : Row) : JSNum :=
  match toNumber r.utilization_pct with
  | .nan => .negInf
  | v => v

/-- Lexicographic comparison of character lists by code point, modelling
JavaScript string `<` (surrogate-order differences above the BMP are not
modelled). -/
def lexLt : List Char → List Char → Bool
  | [], [] => false
  | [], _ :: _ => true
  | _ :: _, [] => false
  | a :: as, b :: bs =>
    if a < b then true
    else if b < a then false
    else lexLt as bs

/-- String sort key of a text column: `(value || "").toString().toLowerCase()`
(script.js lines 262-263). -/
def lowerStr (v : JSValue) : List Char :=
  ((jsOr v (.str "")).toStr).data.map Char.toLower

/-- Comparator branch for `utilization_pct` (numeric, NaN as −∞, then the
generic `A < B` / `A > B` comparison). -/
def utilCompare (dir : Dir) (a b : Row) : Int :=
  let A := utilKey a
  let B := utilKey b
  if JSNum.lt A B then (match dir with | .asc => -1 | .desc => 1)
  else if JSNum.lt B A then (match dir with | .asc => 1 | .desc => -1)
  else 0

/-- Comparator branch for the date/time columns: compares the combined
date+time values; a NaN difference (Invalid Date) counts as 0 under
SortCompare. -/
def dateCompare (dir : Dir) (a b : Row) : Int :=
  match dir with
  | .asc => dateSub (rowDate a) (rowDate b)
  | .desc => dateSub (rowDate b) (rowDate a)

/-- Comparator branch for the text columns. -/
def strCompare (dir : Dir) (A B : List Char) : Int :=
  if lexLt A B then (match dir with | .asc => -1 | .desc => 1)
  else if lexLt B A then (match dir with | .asc => 1 | .desc => -1)
  else 0

/-- Mirrors the sort comparator of `sortData` (script.js lines 249-269). -/
def cmpRow (col : Col) (dir : Dir) (a b : Row) : Int :=
  match col with
  | .utilization_pct => utilCompare dir a b
  | .usage_date => dateCompare dir a b
  | .usage_time => dateCompare dir a b
  | .system_name => strCompare dir (lowerStr (a.get col)) (lowerStr (b.get col))
  | .department_name => strCompare dir (lowerStr (a.get col)) (lowerStr (b.get col))

/-- Inserts `x` into `L` before the first element it compares strictly below,
so that an element keeps its place relative to earlier, tied elements. -/
def insertC (c : α → α → Int) (x : α) : List α → List α
  | [] => [x]
  | y :: ys => if c x y < 0 then x :: y :: ys else y :: insertC c x ys

/-- Stable comparator sort (the model of `Array.prototype.sort`, see the
module header). -/
def sortByC (c : α → α → Int) (l : List α) : List α :=
  l.foldl (fun acc x => insertC c x acc) []

/-- Mirrors `sortData` (script.js lines 248-271). -/
def sortData (data : List Row) (col : Col) (dir : Dir) : List Row :=
  sortByC (cmpRow col dir) data

/-- Date-range predicate applied to each row (script.js lines 318-325). -/
def rowPasses (fromD toD : Option DateVal) (r : Row) : Bool :=
  if truthy r.usage_date then
    if fromD = none ∧ toD = none then true
    else
      let dt := rowDate r
      if (match fromD with | some f => dateLt dt f | none => false) then false
      else if (match toD with | some t => dateLt t dt | none => false) then false
      else true
  else false

/-- Client-side date range filter (script.js lines 314-325): bounds come from
the date inputs, extended to the start and end of day. -/
def dateFilter (fromStr toStr : String) (rows : List Row) : List Row :=
  let fromD :=
    if fromStr ≠ "" then some (jsNewDate (.str (fromStr ++ "T00:00:00"))) else none
  let toD :=
    if toStr ≠ "" then some (jsNewDate (.str (toStr ++ "T23:59:59"))) else none
  rows.filter (rowPasses fromD toD)

/-- Data handed to Chart.js by `renderChart` (script.js lines 160-231):
parallel label and value sequences, plus the rows retained for the tooltip
callbacks. -/
structure ChartData where
  labels : List String
  values : List JSNum
  rows : List Row
deriving DecidableEq

/-- Mirrors the chart adapter part of `renderChart` (script.js lines 164-165):
`labels = data.map(r => usage_date + " " + usage_time)`,
`values = data.map(r => Number(r.utilization_pct))`. -/
def renderChart (data : List Row) : ChartData :=
  { labels := data.map (fun r => r.usage_date.toStr ++ " " ++ r.usage_time.toStr)
    values := data.map (fun r => toNumber r.utilization_pct)
    rows := data }

/-- HTML-escapes a displayed value (script.js `escapeHtml`). -/
def escChar (c : Char) : List Char :=
  if c = '&' then "&amp;".data
  else if c = '<' then "&lt;".data
  else if c = '>' then "&gt;".data
  else if c = '"' then "&quot;".data
  else if c = '\'' then "&#39;".data
  else [c]

/-- Mirrors `escapeHtml` (script.js lines 95-98). -/
def escapeHtml (v : JSValue) : String :=
  match v with
  | .nullv => ""
  | .undef => ""
  | _ => String.mk (v.toStr.data.foldr (fun c acc => escChar c ++ acc) [])

/-- One table row of `renderTable` (template-literal whitespace simplified). -/
def rowHTML (r : Row) : String :=
  "<tr><td>" ++ escapeHtml r.usage_date ++ "</td><td>" ++
    escapeHtml r.usage_time ++ "</td><td>" ++ escapeHtml r.system_name ++
    "</td><td>" ++ escapeHtml r.department_name ++ "</td><td>" ++
    escapeHtml r.utilization_pct ++ "</td></tr>"

/-- Mirrors `renderTable` (script.js lines 234-245). -/
def renderTable (data : List Row) : String :=
  String.join (data.map rowHTML)

/-- Placeholder row written on a fetch failure (script.js line 354). -/
def failureHTML : String :=
  "<tr><td colspan=\"5\" style=\"padding:20px\">Failed to load data. See console.</td></tr>"

/-- The DOM state the script writes to: the six summary cards, the table body
and the chart. -/
structure UIState where
  cardTotal : String
  cardAvg : String
  cardMax : String
  cardMin : String
  cardSystems : String
  cardDepts : String
  tableHTML : String
  chart : Option ChartData
deriving DecidableEq

/-- Mirrors `updateCards` (script.js lines 150-157). -/
def updateCards (s : Summary) (st : UIState) : UIState :=
  { st with
    cardTotal := natToString s.total
    cardAvg := numToString s.avg ++ "%"
    cardMax := numToString s.max ++ "%"
    cardMin := numToString s.min ++ "%"
    cardSystems := natToString s.systems
    cardDepts := natToString s.depts }

/-- Mirrors the catch branch of `applyFiltersAndRender` (script.js lines
347-357): four cards are blanked and the table shows the failure placeholder. -/
def renderFailure (st : UIState) : UIState :=
  { st with
    cardTotal := "—"
    cardAvg := "—"
    cardMax := "—"
    cardMin := "—"
    tableHTML := failureHTML }

/-- Mirrors `applyFiltersAndRender` (script.js lines 294-358). `fetched =
none` models a rejected fetch or a non-array response (both reach the catch
branch); otherwise the rows are normalized, date-filtered, sorted by the
current sort state, aggregated, and rendered into cards, chart and table. -/
def applyFiltersAndRender (fetched : Option (List RawRecord))
    (fromStr toStr : String) (col : Col) (dir : Dir) (st : UIState) : UIState :=
  match fetched with
  | none => renderFailure st
  | some raw =>
    let normalized := raw.map normalize
    let filtered := dateFilter fromStr toStr normalized
    let sorted := sortData filtered col dir
    let summary := computeCards filtered
    let st := updateCards summary st
    { st with
      chart := some (renderChart sorted)
      tableHTML := renderTable sorted }

/-- The next direction on a header click (script.js line 385):
`prev === "asc" ? "desc" : "asc"`. -/
def nextDir : Option Dir → Dir
  | some .asc => .desc
  | _ => .asc

/-- Mirrors the header click handler (script.js lines 380-397): re-sorts the
held rows and re-renders both the table and the chart from that order. -/
def headerClick (currentData : List Row) (col : Col) (prev : Option Dir)
    (st : UIState) : UIState :=
  let sorted := sortData currentData col (nextDir prev)
  { st with
    tableHTML := renderTable sorted
    chart := some (renderChart sorted) }

/-! Specification-side definitions, written from the spec's words, used to
state the claims and compare them with the code's behaviour. -/

/-- Chronological value of a row as the specification describes it: the
combined date+time value, with an unparsable combination treated as the
epoch. -/
def specStamp (r : Row) : Int :=
  match parseDateStr r.usage_date r.usage_time with
  | some (.time t) => t
  | _ => 0

/-- A row whose `usage_date` is non-empty (truthy) but whose combined
date+time string does not parse: the tolerated edge case of the spec. -/
def badDateRow (r : Row) : Prop :=
  truthy r.usage_date = true ∧ parseDateStr r.usage_date r.usage_time = some .invalid

/-- A row whose combined date+time value is an actual timestamp (a parsable
combination, or an empty date defaulted to the epoch). -/
def rowDateValid (r : Row) : Bool :=
  match rowDate r with
  | .time _ => true
  | .invalid => false

/-- Unified sort-key type covering the three column comparators. -/
inductive SortKey where
  | numK (n : JSNum)
  | dateK (d : DateVal)
  | strK (s : List Char)
deriving DecidableEq

/-- Sort key of a column as the comparator actually computes it (an
unparsable date is its own key value, tied with every date by the comparator
but not equal to the epoch key). -/
def colKey : Col → Row → SortKey
  | .utilization_pct, r => .numK (utilKey r)
  | .usage_date, r => .dateK (rowDate r)
  | .usage_time, r => .dateK (rowDate r)
  | .system_name, r => .strK (lowerStr r.system_name)
  | .department_name, r => .strK (lowerStr r.department_name)

/-- Sort key of a column as the specification describes it: date/time columns
key on the chronological value with unparsable combinations as the epoch. -/
def specKey : Col → Row → SortKey
  | .usage_date, r => .dateK (.time (specStamp r))
  | .usage_time, r => .dateK (.time (specStamp r))
  | c, r => colKey c r

/-- Specification-side date-range window test: the combined timestamp (epoch
when unparsable) lies within `[from 00:00:00, to 23:59:59]`, a missing or
unparsable bound imposing no constraint on its side. -/
def specWindow (fromStr toStr : String) (t : Int) : Bool :=
  (match parseTimestampStr (fromStr ++ "T00:00:00") with
   | some f => decide (f ≤ t)
   | none => true) &&
  (match parseTimestampStr (toStr ++ "T23:59:59") with
   | some g => decide (t ≤ g)
   | none => true)

/-- Sum of the `utilization_pct` values that coerce to a finite number, as
the claim about the aggregator's average words it. -/
def specFinSum (data : List Row) : ℚ :=
  data.foldl
    (fun s r => match toNumber r.utilization_pct with
                | .fin q => s + q
                | _ => s) 0

/-- Sum (as a JavaScript number) of the `utilization_pct` values that coerce
to a non-NaN number: what the aggregator's loop actually accumulates. -/
def specNonNanSum (data : List Row) : JSNum :=
  data.foldl
    (fun s r => let v := toNumber r.utilization_pct
                if v ≠ .nan then s.add v else s) (.fin 0)

/-- Round-half-away-from-zero at the 2nd decimal, as the claim words it:
`sign(n) * round-half-up(|n| * 100) / 100`. -/
def specRound2 (q : ℚ) : ℚ :=
  (if q < 0 then (-1 : ℚ) else if q = 0 then 0 else 1) *
    ((⌊|q| * 100 + 1/2⌋ : ℤ) : ℚ) / 100

/-- Claim C1 as stated: for every row set and every sort state, the chart
adapter's output rows (hence its label and value sequences) are ordered
chronologically ascending by combined date+time. -/
def claimC1Prop : Prop :=
  ∀ (rows : List Row) (col : Col) (dir : Dir),
    List.Chain' (fun a b => specStamp a ≤ specStamp b)
      (renderChart (sortData rows col dir)).rows

/-- Claim C2 as stated: a row with a non-empty but unparsable date+time is
treated as the epoch — under ascending date sort it comes no later than any
row, and the filter includes it exactly when the window admits the epoch. -/
def claimC2Prop : Prop :=
  ∀ (r : Row), badDateRow r →
    (∀ (rows : List Row) (other : Row), other ∈ rows →
      ∀ i j, (sortData rows Col.usage_date Dir.asc).get? i = some r →
        (sortData rows Col.usage_date Dir.asc).get? j = some other →
        specStamp r < specStamp other → i ≤ j) ∧
    (∀ (fromStr toStr : String) (rows : List Row), r ∈ rows →
      (r ∈ dateFilter fromStr toStr rows ↔ specWindow fromStr toStr 0 = true))

/-- Claim C3 as stated: the aggregator's average is the sum of the values
that coerce to a finite number, divided by the full row count, rounded to two
decimals. -/
def claimC3Prop : Prop :=
  ∀ (data : List Row), 0 < data.length →
    (computeCards data).avg =
      round (.fin (specFinSum data / (data.length : ℚ))) 2

/-- Claim C4 as stated: membership in the filter output is equivalent to a
non-empty `usage_date` together with the combined timestamp lying in the
inclusive window. -/
def claimC4Prop : Prop :=
  ∀ (rows : List Row) (fromStr toStr : String), rows ≠ [] →
    ∀ r, r ∈ dateFilter fromStr toStr rows ↔
      (r ∈ rows ∧ truthy r.usage_date = true ∧
        specWindow fromStr toStr (specStamp r) = true)

/-- Claim C5 as stated: on a fetch failure the operation blanks all six
summary cards, renders the failure placeholder row, and leaves the chart
untouched. -/
def claimC5Prop : Prop :=
  ∀ (fromStr toStr : String) (col : Col) (dir : Dir) (st : UIState),
    (applyFiltersAndRender none fromStr toStr col dir st).cardTotal = "—" ∧
    (applyFiltersAndRender none fromStr toStr col dir st).cardAvg = "—" ∧
    (applyFiltersAndRender none fromStr toStr col dir st).cardMax = "—" ∧
    (applyFiltersAndRender none fromStr toStr col dir st).cardMin = "—" ∧
    (applyFiltersAndRender none fromStr toStr col dir st).cardSystems = "—" ∧
    (applyFiltersAndRender none fromStr toStr col dir st).cardDepts = "—" ∧
    (applyFiltersAndRender none fromStr toStr col dir st).tableHTML = failureHTML ∧
    (applyFiltersAndRender none fromStr toStr col dir st).chart = st.chart

/-- Claim C7 as stated: descending sort is the exact reverse of ascending
sort when the keys are pairwise strictly ordered, and sorting is stable with
respect to the specification's sort keys (equal keys keep their input
order, expressed through filtering by each key). -/
def claimC7Prop : Prop :=
  (∀ (col : Col) (l : List Row),
    l.Pairwise (fun a b => cmpRow col Dir.asc a b ≠ 0) →
      sortData l col Dir.desc = (sortData l col Dir.asc).reverse) ∧
  (∀ (col : Col) (dir : Dir) (l : List Row) (k : SortKey),
    (sortData l col dir).filter (fun r => specKey col r = k) =
      l.filter (fun r => specKey col r = k))

/-- Claim C9 as stated: for every rational, `round(n, 2)` equals
round-half-away-from-zero at the second decimal. -/
def claimC9Prop : Prop :=
  ∀ q : ℚ, round (.fin q) 2 = .fin (specRound2 q)

/-! Concrete rows used by counterexamples and witnesses. -/

/-- Row dated 2024-01-01 10:00:00. -/
def rowJan1 : Row :=
  ⟨.str "2024-01-01", .str "10:00:00", .str "", .str "", .str ""⟩

/-- Row dated 2024-01-02 10:00:00. -/
def rowJan2 : Row :=
  ⟨.str "2024-01-02", .str "10:00:00", .str "", .str "", .str ""⟩

/-- Row dated 2024-01-05, no time. -/
def rowJan5 : Row :=
  ⟨.str "2024-01-05", .str "", .str "", .str "", .str ""⟩

/-- Row dated 2024-01-06, no time. -/
def rowJan6 : Row :=
  ⟨.str "2024-01-06", .str "", .str "", .str "", .str ""⟩

/-- Row with a non-empty unparsable date. -/
def rowBadDate : Row :=
  ⟨.str "zzz", .str "", .str "", .str "", .str ""⟩

/-- Row dated exactly at the epoch, 1970-01-01 00:00:00. -/
def rowEpoch : Row :=
  ⟨.str "1970-01-01", .str "00:00:00", .str "", .str "", .str ""⟩

/-- Row with utilization 10 (scenario B). -/
def rowPct10 : Row := { rowJan1 with utilization_pct := .num (.fin 10) }

/-- Row with the non-numeric utilization `"bad"` (scenario B). -/
def rowPctBad : Row := { rowJan1 with utilization_pct := .str "bad" }

/-- Row with utilization 30 (scenario B). -/
def rowPct30 : Row := { rowJan1 with utilization_pct := .num (.fin 30) }

/-- Row whose utilization coerces to positive infinity. -/
def rowPctInf : Row := { rowJan1 with utilization_pct := .str "Infinity" }

/-- Row with utilization 25 and a distinct date, for sorter witnesses. -/
def rowPct25 : Row := { rowJan2 with utilization_pct := .num (.fin 25) }

/-- Raw record with every field absent. -/
def emptyRaw : RawRecord := ⟨none, none, none, none, none, none, none, none⟩

/-- Raw record with a present-but-falsy usage_date and a present empty-string
utilization_pct (normalizer edge cases). -/
def rawFalsy : RawRecord :=
  ⟨some .nullv, none, some (.str ""), none, none, none, none, none⟩

/-- A pre-failure UI state with non-blank systems/departments cards. -/
def stBefore : UIState :=
  ⟨"7", "12%", "80%", "1%", "5", "4", "rows", none⟩

/-- Order embedding of the comparator's numeric values (NaN and negative
infinity share the bottom): used to reason about the `utilization_pct`
comparator through a linear order. -/
def keyQ : JSNum → WithBot (WithTop ℚ)
  | .nan => ⊥
  | .negInf => ⊥
  | .posInf => ((⊤ : WithTop ℚ) : WithBot (WithTop ℚ))
  | .fin q => ((q : WithTop ℚ) : WithBot (WithTop ℚ))

/-- Invariant relation maintained by the date comparator: timestamps of
parsable rows are in order (no constraint on unparsable rows). -/
def dateLe (a b : Row) : Prop :=
  ∀ ta tb, rowDate a = .time ta → rowDate b = .time tb → ta ≤ tb

/-- Invariant relation maintained by the `utilization_pct` comparator. -/
def utilLe (a b : Row) : Prop :=
  keyQ (utilKey a) ≤ keyQ (utilKey b)

/-- Invariant relation maintained by the text-column comparators. -/
def strLe (A B : List Char) : Prop :=
  lexLt B A = false

/-! Generic lemmas about the stable insertion sort. -/

theorem insertC_mem {c : α → α → Int} {x a : α} {L : List α} :
    a ∈ insertC c x L ↔ a = x ∨ a ∈ L := by
  induction L with
  | nil => simp [insertC]
  | cons y ys ih =>
    simp only [insertC]
    by_cases h : c x y < 0
    · rw [if_pos h]
      simp only [List.mem_cons]
    · rw [if_neg h]
      simp only [List.mem_cons, ih]
      tauto

theorem insertC_perm (c : α → α → Int) (x : α) (L : List α) :
    (insertC c x L).Perm (x :: L) := by
  induction L with
  | nil => exact List.Perm.refl _
  | cons y ys ih =>
    simp only [insertC]
    by_cases h : c x y < 0
    · rw [if_pos h]
    · rw [if_neg h]
      exact (ih.cons y).trans (List.Perm.swap x y ys)

theorem sortByC_perm (c : α → α → Int) (l : List α) : (sortByC c l).Perm l := by
  suffices h : ∀ (xs acc : List α),
      (xs.foldl (fun acc x => insertC c x acc) acc).Perm (acc ++ xs) by
    simpa using h l []
  intro xs
  induction xs with
  | nil => intro acc; simp
  | cons x xs ih =>
    intro acc
    rw [List.foldl_cons]
    refine (ih (insertC c x acc)).trans ?_
    refine (((insertC_perm c x acc).append_right xs).trans ?_)
    simpa using List.perm_middle.symm

theorem insertC_pairwise {T : α → α → Prop} {c : α → α → Int} {x : α} {L : List α}
    (h1 : ∀ p, ¬ c x p < 0 → T p x)
    (h2 : ∀ y, c x y < 0 → T x y)
    (h3 : ∀ y s, c x y < 0 → T y s → T x s)
    (hL : L.Pairwise T) : (insertC c x L).Pairwise T := by
  induction L with
  | nil => simp [insertC]
  | cons y ys ih =>
    rcases List.pairwise_cons.mp hL with ⟨hy, hys⟩
    simp only [insertC]
    by_cases h : c x y < 0
    · rw [if_pos h]
      refine List.pairwise_cons.mpr ⟨?_, hL⟩
      intro s hs
      rcases List.mem_cons.mp hs with rfl | hs
      · exact h2 _ h
      · exact h3 _ _ h (hy _ hs)
    · rw [if_neg h]
      refine List.pairwise_cons.mpr ⟨?_, ih hys⟩
      intro s hs
      rcases insertC_mem.mp hs with rfl | hs
      · exact h1 _ h
      · exact hy _ hs

theorem sortByC_pairwise (T : α → α → Prop) {c : α → α → Int}
    (h1 : ∀ x p, ¬ c x p < 0 → T p x)
    (h2 : ∀ x y, c x y < 0 → T x y)
    (h3 : ∀ x y s, c x y < 0 → T y s → T x s)
    (l : List α) : (sortByC c l).Pairwise T := by
  suffices h : ∀ (xs acc : List α), acc.Pairwise T →
      (xs.foldl (fun acc x => insertC c x acc) acc).Pairwise T from
    h l [] List.Pairwise.nil
  intro xs
  induction xs with
  | nil => intro acc hacc; exact hacc
  | cons x xs ih =>
    intro acc hacc
    exact ih _ (insertC_pairwise (h1 x) (h2 x) (h3 x) hacc)

theorem insertC_split (c : α → α → Int) (x : α) (L : List α) :
    ∃ L₁ L₂, L = L₁ ++ L₂ ∧ insertC c x L = L₁ ++ x :: L₂ ∧
      (L₂ = [] ∨ ∃ y t, L₂ = y :: t ∧ c x y < 0) := by
  induction L with
  | nil => exact ⟨[], [], rfl, rfl, Or.inl rfl⟩
  | cons y ys ih =>
    by_cases h : c x y < 0
    · refine ⟨[], y :: ys, rfl, ?_, Or.inr ⟨y, ys, rfl, h⟩⟩
      simp [insertC, h]
    · rcases ih with ⟨L₁, L₂, hsplit, hins, hcase⟩
      refine ⟨y :: L₁, L₂, by simp [hsplit], ?_, hcase⟩
      simp only [insertC, if_neg h, hins, List.cons_append]

theorem insertC_filter {T : α → α → Prop} {c : α → α → Int} {x : α} {L : List α}
    (P : α → Bool)
    (hT : L.Pairwise T)
    (hy0 : ∀ y, c x y < 0 → P x = true → P y = false)
    (hsuf : ∀ y s, c x y < 0 → T y s → P x = true → P s = false) :
    (insertC c x L).filter P = L.filter P ++ (if P x then [x] else []) := by
  rcases insertC_split c x L with ⟨L₁, L₂, hsplit, hins, hcase⟩
  subst hsplit
  rw [hins, List.filter_append, List.filter_append, List.filter_cons]
  by_cases hpx : P x = true
  · have hL2 : L₂.filter P = [] := by
      rcases hcase with rfl | ⟨y, t, rfl, hy⟩
      · rfl
      · rw [List.filter_eq_nil_iff]
        intro s hs
        rcases List.mem_cons.mp hs with rfl | hs
        · simp [hy0 s hy hpx]
        · have hyt : (y :: t).Pairwise T := (List.pairwise_append.mp hT).2.1
          have := (List.pairwise_cons.mp hyt).1 s hs
          simp [hsuf y s hy this hpx]
    rw [hpx, if_pos rfl, hL2]
    simp
  · have hpx' : P x = false := Bool.eq_false_iff.mpr hpx
    rw [hpx', if_neg (by simp)]
    simp

theorem sortByC_filter (T : α → α → Prop) {c : α → α → Int} (P : α → Bool)
    (h1 : ∀ x p, ¬ c x p < 0 → T p x)
    (h2 : ∀ x y, c x y < 0 → T x y)
    (h3 : ∀ x y s, c x y < 0 → T y s → T x s)
    (hy0 : ∀ x y, c x y < 0 → P x = true → P y = false)
    (hsuf : ∀ x y s, c x y < 0 → T y s → P x = true → P s = false)
    (l : List α) : (sortByC c l).filter P = l.filter P := by
  suffices h : ∀ (xs acc : List α), acc.Pairwise T →
      (xs.foldl (fun acc x => insertC c x acc) acc).filter P =
        acc.filter P ++ xs.filter P by
    simpa using h l [] List.Pairwise.nil
  intro xs
  induction xs with
  | nil => intro acc _; simp
  | cons x xs ih =>
    intro acc hacc
    rw [List.foldl_cons, ih _ (insertC_pairwise (h1 x) (h2 x) (h3 x) hacc),
      insertC_filter P hacc (hy0 x) (hsuf x), List.filter_cons]
    by_cases hpx : P x = true
    · rw [hpx]
      simp
    · have hpx' : P x = false := Bool.eq_false_iff.mpr hpx
      rw [hpx']
      simp

theorem insertC_pairwise_lt {c : α → α → Int} {x : α} {L : List α}
    (gAnti : ∀ a b, c a b < 0 ↔ 0 < c b a)
    (gTrans : ∀ a b d, c a b < 0 → c b d < 0 → c a d < 0)
    (hcmp : ∀ a ∈ L, c a x ≠ 0)
    (hL : L.Pairwise fun a b => c a b < 0) :
    (insertC c x L).Pairwise fun a b => c a b < 0 := by
  induction L with
  | nil => simp [insertC]
  | cons y ys ih =>
    rcases List.pairwise_cons.mp hL with ⟨hy, hys⟩
    simp only [insertC]
    by_cases h : c x y < 0
    · rw [if_pos h]
      refine List.pairwise_cons.mpr ⟨?_, hL⟩
      intro s hs
      rcases List.mem_cons.mp hs with rfl | hs
      · exact h
      · exact gTrans _ _ _ h (hy _ hs)
    · rw [if_neg h]
      have hyx : c y x < 0 := by
        have hne := hcmp y (List.mem_cons_self y ys)
        rcases lt_trichotomy (c y x) 0 with hlt | heq | hgt
        · exact hlt
        · exact absurd heq hne
        · exact absurd ((gAnti x y).mpr hgt) h
      refine List.pairwise_cons.mpr
        ⟨?_, ih (fun a ha => hcmp a (List.mem_cons_of_mem y ha)) hys⟩
      intro s hs
      rcases insertC_mem.mp hs with rfl | hs
      · exact hyx
      · exact hy _ hs

theorem sortByC_pairwise_lt {c : α → α → Int}
    (gAnti : ∀ a b, c a b < 0 ↔ 0 < c b a)
    (gTrans : ∀ a b d, c a b < 0 → c b d < 0 → c a d < 0)
    {l : List α} (H : l.Pairwise fun a b => c a b ≠ 0) :
    (sortByC c l).Pairwise fun a b => c a b < 0 := by
  suffices h : ∀ (xs acc : List α),
      (∀ a ∈ acc, ∀ b ∈ xs, c a b ≠ 0) →
      acc.Pairwise (fun a b => c a b < 0) →
      xs.Pairwise (fun a b => c a b ≠ 0) →
      (xs.foldl (fun acc x => insertC c x acc) acc).Pairwise fun a b => c a b < 0 by
    exact h l [] (by simp) List.Pairwise.nil H
  intro xs
  induction xs with
  | nil => intro acc _ hacc _; exact hacc
  | cons x xs ih =>
    intro acc hcross hacc hxs
    rcases List.pairwise_cons.mp hxs with ⟨hxhead, hxs'⟩
    rw [List.foldl_cons]
    refine ih (insertC c x acc) ?_ ?_ hxs'
    · intro a ha b hb
      rcases insertC_mem.mp ha with rfl | ha
      · exact hxhead b hb
      · exact hcross a ha b (List.mem_cons_of_mem x hb)
    · refine insertC_pairwise_lt gAnti gTrans ?_ hacc
      intro a ha
      exact hcross a ha x (List.mem_cons_self x xs)

theorem perm_pairwise_lt_unique {c : α → α → Int}
    (gAsym : ∀ a b, c a b < 0 → ¬ c b a < 0) :
    ∀ l₁ l₂ : List α, l₁.Perm l₂ → (l₁.Pairwise fun a b => c a b < 0) →
      (l₂.Pairwise fun a b => c a b < 0) → l₁ = l₂ := by
  intro l₁
  induction l₁ with
  | nil =>
    intro l₂ hp _ _
    exact hp.nil_eq
  | cons a t₁ ih =>
    intro l₂ hp h₁ h₂
    have ha : a ∈ l₂ := hp.subset (List.mem_cons_self a t₁)
    cases l₂ with
    | nil => exact absurd ha (List.not_mem_nil a)
    | cons b t₂ =>
      rcases List.pairwise_cons.mp h₂ with ⟨hb, ht₂⟩
      rcases List.pairwise_cons.mp h₁ with ⟨haT, ht₁⟩
      by_cases hab : a = b
      · subst hab
        rw [ih t₂ hp.cons_inv ht₁ ht₂]
      · have ha2 : a ∈ t₂ := (List.mem_cons.mp ha).resolve_left hab
        have hb1 : b ∈ a :: t₁ := hp.symm.subset (List.mem_cons_self b t₂)
        have hb1' : b ∈ t₁ :=
          (List.mem_cons.mp hb1).resolve_left fun e => hab e.symm
        exact absurd (haT b hb1') (gAsym _ _ (hb a ha2))

theorem sortByC_swap_reverse {c : α → α → Int}
    (gAnti : ∀ a b, c a b < 0 ↔ 0 < c b a)
    (gTrans : ∀ a b d, c a b < 0 → c b d < 0 → c a d < 0)
    {l : List α} (H : l.Pairwise fun a b => c a b ≠ 0) :
    sortByC (fun a b => c b a) l = (sortByC c l).reverse := by
  have hzsym : ∀ a b : α, c a b ≠ 0 → c b a ≠ 0 := by
    intro a b hne
    rcases lt_trichotomy (c a b) 0 with hlt | heq | hgt
    · have := (gAnti a b).mp hlt
      omega
    · exact absurd heq hne
    · have := (gAnti b a).mpr hgt
      omega
  have hdesc : (sortByC (fun a b => c b a) l).Pairwise fun a b => c b a < 0 := by
    refine sortByC_pairwise_lt ?_ ?_ (H.imp fun {a b} hne => hzsym a b hne)
    · intro a b
      exact gAnti b a
    · intro a b d h1 h2
      exact gTrans d b a h2 h1
  have hasc : (sortByC c l).Pairwise fun a b => c a b < 0 :=
    sortByC_pairwise_lt gAnti gTrans H
  have hrev : ((sortByC c l).reverse).Pairwise fun a b => c b a < 0 :=
    List.pairwise_reverse.mpr hasc
  have hperm : (sortByC (fun a b => c b a) l).Perm ((sortByC c l).reverse) :=
    ((sortByC_perm _ l).trans (sortByC_perm c l).symm).trans
      (sortByC c l).reverse_perm.symm
  have gAsym : ∀ a b : α, c b a < 0 → ¬ c a b < 0 := by
    intro a b hab
    have := (gAnti b a).mp hab
    omega
  exact perm_pairwise_lt_unique gAsym _ _ hperm hdesc hrev

/-! Characterizations of the three column comparators. -/

theorem jsLt_iff (a b : JSNum) :
    JSNum.lt a b = true ↔ (a ≠ .nan ∧ b ≠ .nan ∧ keyQ a < keyQ b) := by
  cases a <;> cases b <;>
    simp [JSNum.lt, keyQ, WithBot.bot_lt_coe, WithBot.coe_lt_coe,
      WithTop.coe_lt_top]
  exact WithBot.coe_lt_coe.mpr (WithTop.coe_lt_top _)

theorem jsLt_asymm {a b : JSNum} (h : JSNum.lt a b = true) :
    JSNum.lt b a = false := by
  rcases (jsLt_iff a b).mp h with ⟨ha, hb, hlt⟩
  by_contra hc
  rcases (jsLt_iff b a).mp (Bool.of_not_eq_false hc) with ⟨_, _, hlt2⟩
  exact absurd hlt2 (not_lt.mpr hlt.le)

theorem utilKey_ne_nan (r : Row) : utilKey r ≠ .nan := by
  unfold utilKey
  split
  · simp
  · rename_i v hv
    intro he
    exact hv he

theorem utilCompare_asc_lt (a b : Row) :
    utilCompare .asc a b < 0 ↔ keyQ (utilKey a) < keyQ (utilKey b) := by
  unfold utilCompare
  by_cases h1 : JSNum.lt (utilKey a) (utilKey b) = true
  · rw [if_pos h1]
    simp only [show ((-1 : Int) < 0) = True by simp, true_iff]
    exact ((jsLt_iff _ _).mp h1).2.2
  · rw [if_neg h1]
    have hnot : ¬ keyQ (utilKey a) < keyQ (utilKey b) := fun hlt =>
      h1 ((jsLt_iff _ _).mpr ⟨utilKey_ne_nan a, utilKey_ne_nan b, hlt⟩)
    by_cases h2 : JSNum.lt (utilKey b) (utilKey a) = true
    · rw [if_pos h2]
      simp [hnot]
    · rw [if_neg h2]
      simp [hnot]

theorem utilCompare_asc_pos (a b : Row) :
    0 < utilCompare .asc a b ↔ keyQ (utilKey b) < keyQ (utilKey a) := by
  unfold utilCompare
  by_cases h1 : JSNum.lt (utilKey a) (utilKey b) = true
  · rw [if_pos h1]
    have := ((jsLt_iff _ _).mp h1).2.2
    simp [not_lt.mpr this.le]
  · rw [if_neg h1]
    by_cases h2 : JSNum.lt (utilKey b) (utilKey a) = true
    · rw [if_pos h2]
      simp [((jsLt_iff _ _).mp h2).2.2]
    · rw [if_neg h2]
      have hnot : ¬ keyQ (utilKey b) < keyQ (utilKey a) := fun hlt =>
        h2 ((jsLt_iff _ _).mpr ⟨utilKey_ne_nan b, utilKey_ne_nan a, hlt⟩)
      simp [hnot]

theorem utilCompare_desc_swap (a b : Row) :
    utilCompare .desc a b = utilCompare .asc b a := by
  unfold utilCompare
  by_cases h1 : JSNum.lt (utilKey a) (utilKey b) = true
  · rw [if_pos h1, if_neg (by simp [jsLt_asymm h1]), if_pos h1]
  · rw [if_neg h1]
    by_cases h2 : JSNum.lt (utilKey b) (utilKey a) = true
    · rw [if_pos h2, if_pos h2]
    · rw [if_neg h2, if_neg h2, if_neg h1]

theorem utilCompare_refl (dir : Dir) (a : Row) : utilCompare dir a a = 0 := by
  have h : JSNum.lt (utilKey a) (utilKey a) = false := by
    by_contra hc
    have := ((jsLt_iff _ _).mp (Bool.of_not_eq_false hc)).2.2
    exact absurd this (lt_irrefl _)
  simp [utilCompare, h]

theorem lexLt_irrefl (a : List Char) : lexLt a a = false := by
  induction a with
  | nil => rfl
  | cons x xs ih => simp [lexLt, ih]

theorem lexLt_asymm : ∀ a b : List Char, lexLt a b = true → lexLt b a = false := by
  intro a
  induction a with
  | nil =>
    intro b h
    cases b with
    | nil => simp [lexLt] at h
    | cons y ys => simp [lexLt]
  | cons x xs ih =>
    intro b h
    cases b with
    | nil => simp [lexLt] at h
    | cons y ys =>
      simp only [lexLt] at h ⊢
      by_cases h1 : x < y
      · rw [if_neg (asymm h1), if_pos h1]
      · rw [if_neg h1] at h
        by_cases h2 : y < x
        · rw [if_pos h2] at h
          simp at h
        · rw [if_neg h2] at h
          rw [if_neg h2, if_neg h1]
          exact ih ys h

theorem lexLt_trans :
    ∀ a b d : List Char, lexLt a b = true → lexLt b d = true → lexLt a d = true := by
  intro a
  induction a with
  | nil =>
    intro b d hab hbd
    cases b with
    | nil => simp [lexLt] at hab
    | cons y ys =>
      cases d with
      | nil => simp [lexLt] at hbd
      | cons z zs => simp [lexLt]
  | cons x xs ih =>
    intro b d hab hbd
    cases b with
    | nil => simp [lexLt] at hab
    | cons y ys =>
      cases d with
      | nil => simp [lexLt] at hbd
      | cons z zs =>
        simp only [lexLt] at hab hbd ⊢
        by_cases h1 : x < y
        · by_cases h2 : y < z
          · rw [if_pos (lt_trans h1 h2)]
          · rw [if_neg h2] at hbd
            by_cases h3 : z < y
            · rw [if_pos h3] at hbd
              simp at hbd
            · have hyz : y = z := le_antisymm (not_lt.mp h3) (not_lt.mp h2)
              rw [if_pos (hyz ▸ h1)]
        · rw [if_neg h1] at hab
          by_cases h1b : y < x
          · rw [if_pos h1b] at hab
            simp at hab
          · rw [if_neg h1b] at hab
            have hxy : x = y := le_antisymm (not_lt.mp h1b) (not_lt.mp h1)
            subst hxy
            by_cases h2 : x < z
            · rw [if_pos h2]
            · rw [if_neg h2] at hbd ⊢
              by_cases h3 : z < x
              · rw [if_pos h3] at hbd
                simp at hbd
              · rw [if_neg h3] at hbd ⊢
                exact ih ys zs hab hbd

theorem lexLt_conn :
    ∀ a b : List Char, lexLt a b = false → lexLt b a = false → a = b := by
  intro a
  induction a with
  | nil =>
    intro b h1 _
    cases b with
    | nil => rfl
    | cons y ys => simp [lexLt] at h1
  | cons x xs ih =>
    intro b h1 h2
    cases b with
    | nil => simp [lexLt] at h2
    | cons y ys =>
      simp only [lexLt] at h1 h2
      by_cases hxy : x < y
      · rw [if_pos hxy] at h1
        simp at h1
      · by_cases hyx : y < x
        · rw [if_pos hyx] at h2
          simp at h2
        · rw [if_neg hxy, if_neg hyx] at h1
          rw [if_neg hyx, if_neg hxy] at h2
          have hx : x = y := le_antisymm (not_lt.mp hyx) (not_lt.mp hxy)
          subst hx
          rw [ih ys h1 h2]

theorem strCompare_asc_lt (A B : List Char) :
    strCompare .asc A B < 0 ↔ lexLt A B = true := by
  unfold strCompare
  by_cases h1 : lexLt A B = true
  · rw [if_pos h1]
    simp [h1]
  · rw [if_neg h1]
    by_cases h2 : lexLt B A = true
    · rw [if_pos h2]
      simp [h1]
    · rw [if_neg h2]
      simp [h1]

theorem strCompare_asc_pos (A B : List Char) :
    0 < strCompare .asc A B ↔ lexLt B A = true := by
  unfold strCompare
  by_cases h1 : lexLt A B = true
  · rw [if_pos h1]
    simp [lexLt_asymm _ _ h1]
  · rw [if_neg h1]
    by_cases h2 : lexLt B A = true
    · rw [if_pos h2]
      simp [h2]
    · rw [if_neg h2]
      simp [h2]

theorem strCompare_desc_swap (A B : List Char) :
    strCompare .desc A B = strCompare .asc B A := by
  unfold strCompare
  by_cases h1 : lexLt A B = true
  · rw [if_pos h1, if_neg (by simp [lexLt_asymm _ _ h1]), if_pos h1]
  · rw [if_neg h1]
    by_cases h2 : lexLt B A = true
    · rw [if_pos h2, if_pos h2]
    · rw [if_neg h2, if_neg h2, if_neg h1]

theorem strCompare_refl (dir : Dir) (A : List Char) : strCompare dir A A = 0 := by
  simp [strCompare, lexLt_irrefl]

theorem dateCompare_asc_lt (a b : Row) :
    dateCompare .asc a b < 0 ↔
      ∃ ta tb, rowDate a = .time ta ∧ rowDate b = .time tb ∧ ta < tb := by
  unfold dateCompare
  cases ha : rowDate a <;> cases hb : rowDate b <;>
    simp [dateSub] <;> omega

theorem dateCompare_asc_anti (a b : Row) :
    dateCompare .asc a b < 0 ↔ 0 < dateCompare .asc b a := by
  unfold dateCompare
  cases rowDate a <;> cases rowDate b <;> simp [dateSub] <;> omega

theorem dateCompare_desc_swap (a b : Row) :
    dateCompare .desc a b = dateCompare .asc b a := rfl

theorem dateCompare_refl (dir : Dir) (a : Row) : dateCompare dir a a = 0 := by
  cases dir <;> { unfold dateCompare; cases rowDate a <;> simp [dateSub] }

theorem cmpRow_desc_swap (col : Col) (a b : Row) :
    cmpRow col .desc a b = cmpRow col .asc b a := by
  cases col
  · exact dateCompare_desc_swap a b
  · exact dateCompare_desc_swap a b
  · exact utilCompare_desc_swap a b
  · exact strCompare_desc_swap _ _
  · exact strCompare_desc_swap _ _

theorem cmpRow_asc_anti (col : Col) (a b : Row) :
    cmpRow col .asc a b < 0 ↔ 0 < cmpRow col .asc b a := by
  cases col
  · exact dateCompare_asc_anti a b
  · exact dateCompare_asc_anti a b
  · show utilCompare .asc a b < 0 ↔ 0 < utilCompare .asc b a
    rw [utilCompare_asc_lt, utilCompare_asc_pos]
  · show strCompare .asc _ _ < 0 ↔ 0 < strCompare .asc _ _
    rw [strCompare_asc_lt, strCompare_asc_pos]
  · show strCompare .asc _ _ < 0 ↔ 0 < strCompare .asc _ _
    rw [strCompare_asc_lt, strCompare_asc_pos]

theorem cmpRow_asc_trans (col : Col) (a b d : Row) :
    cmpRow col .asc a b < 0 → cmpRow col .asc b d < 0 → cmpRow col .asc a d < 0 := by
  cases col
  · intro h1 h2
    rcases (dateCompare_asc_lt a b).mp h1 with ⟨ta, tb, hta, htb, hlt1⟩
    rcases (dateCompare_asc_lt b d).mp h2 with ⟨tb2, td, htb2, htd, hlt2⟩
    rw [htb2] at htb
    cases htb
    exact (dateCompare_asc_lt a d).mpr ⟨ta, td, hta, htd, by omega⟩
  · intro h1 h2
    rcases (dateCompare_asc_lt a b).mp h1 with ⟨ta, tb, hta, htb, hlt1⟩
    rcases (dateCompare_asc_lt b d).mp h2 with ⟨tb2, td, htb2, htd, hlt2⟩
    rw [htb2] at htb
    cases htb
    exact (dateCompare_asc_lt a d).mpr ⟨ta, td, hta, htd, by omega⟩
  · show utilCompare .asc a b < 0 → utilCompare .asc b d < 0 → utilCompare .asc a d < 0
    rw [utilCompare_asc_lt, utilCompare_asc_lt, utilCompare_asc_lt]
    exact lt_trans
  · show strCompare .asc _ _ < 0 → strCompare .asc _ _ < 0 → strCompare .asc _ _ < 0
    rw [strCompare_asc_lt, strCompare_asc_lt, strCompare_asc_lt]
    exact lexLt_trans _ _ _
  · show strCompare .asc _ _ < 0 → strCompare .asc _ _ < 0 → strCompare .asc _ _ < 0
    rw [strCompare_asc_lt, strCompare_asc_lt, strCompare_asc_lt]
    exact lexLt_trans _ _ _

theorem time_inj {s t : Int} (h : DateVal.time s = DateVal.time t) : s = t := by
  cases h
  rfl

theorem sortByC_filter_dateC (dir : Dir) (l : List Row) (k : SortKey) :
    (sortByC (dateCompare dir) l).filter (fun r => SortKey.dateK (rowDate r) = k) =
      l.filter (fun r => SortKey.dateK (rowDate r) = k) := by
  cases dir
  · refine sortByC_filter dateLe _ ?_ ?_ ?_ ?_ ?_ l
    · intro x p h tp tx hp hx
      by_contra hc
      exact h ((dateCompare_asc_lt x p).mpr ⟨tx, tp, hx, hp, by omega⟩)
    · intro x y h ta tb ha hb
      rcases (dateCompare_asc_lt x y).mp h with ⟨tx, ty, hx, hy, hlt⟩
      have e1 := time_inj (ha.symm.trans hx)
      have e2 := time_inj (hb.symm.trans hy)
      omega
    · intro x y s h hys ta ts ha hs
      rcases (dateCompare_asc_lt x y).mp h with ⟨tx, ty, hx, hy, hlt⟩
      have e1 := time_inj (ha.symm.trans hx)
      have e2 := hys ty ts hy hs
      omega
    · intro x y h hx
      rcases (dateCompare_asc_lt x y).mp h with ⟨tx, ty, hxd, hyd, hlt⟩
      simp only [decide_eq_true_eq] at hx
      simp only [decide_eq_false_iff_not]
      intro he
      rw [hyd, ← hx, hxd] at he
      have hee : DateVal.time ty = DateVal.time tx := by injection he
      have := time_inj hee
      omega
    · intro x y s h hys hx
      rcases (dateCompare_asc_lt x y).mp h with ⟨tx, ty, hxd, hyd, hlt⟩
      simp only [decide_eq_true_eq] at hx
      simp only [decide_eq_false_iff_not]
      intro he
      rw [← hx, hxd] at he
      cases hs2 : rowDate s with
      | invalid =>
        rw [hs2] at he
        exact absurd (by injection he) (by simp)
      | time ts =>
        rw [hs2] at he
        have hee : DateVal.time ts = DateVal.time tx := by injection he
        have e1 := time_inj hee
        have e2 := hys ty ts hyd hs2
        omega
  · refine sortByC_filter (fun a b => dateLe b a) _ ?_ ?_ ?_ ?_ ?_ l
    · intro x p h tx tp hx hp
      by_contra hc
      exact h ((dateCompare_asc_lt p x).mpr ⟨tp, tx, hp, hx, by omega⟩)
    · intro x y h tb ta hb ha
      rcases (dateCompare_asc_lt y x).mp h with ⟨ty, tx, hy, hx, hlt⟩
      have e1 := time_inj (ha.symm.trans hx)
      have e2 := time_inj (hb.symm.trans hy)
      omega
    · intro x y s h hys ts ta hs ha
      rcases (dateCompare_asc_lt y x).mp h with ⟨ty, tx, hy, hx, hlt⟩
      have e1 := time_inj (ha.symm.trans hx)
      have e2 := hys ts ty hs hy
      omega
    · intro x y h hx
      rcases (dateCompare_asc_lt y x).mp h with ⟨ty, tx, hyd, hxd, hlt⟩
      simp only [decide_eq_true_eq] at hx
      simp only [decide_eq_false_iff_not]
      intro he
      rw [hyd, ← hx, hxd] at he
      have hee : DateVal.time ty = DateVal.time tx := by injection he
      have := time_inj hee
      omega
    · intro x y s h hys hx
      rcases (dateCompare_asc_lt y x).mp h with ⟨ty, tx, hyd, hxd, hlt⟩
      simp only [decide_eq_true_eq] at hx
      simp only [decide_eq_false_iff_not]
      intro he
      rw [← hx, hxd] at he
      cases hs2 : rowDate s with
      | invalid =>
        rw [hs2] at he
        exact absurd (by injection he) (by simp)
      | time ts =>
        rw [hs2] at he
        have hee : DateVal.time ts = DateVal.time tx := by injection he
        have e1 := time_inj hee
        have e2 := hys ts ty hs2 hyd
        omega

theorem sortByC_filter_utilC (dir : Dir) (l : List Row) (k : SortKey) :
    (sortByC (utilCompare dir) l).filter (fun r => SortKey.numK (utilKey r) = k) =
      l.filter (fun r => SortKey.numK (utilKey r) = k) := by
  cases dir
  · refine sortByC_filter utilLe _ ?_ ?_ ?_ ?_ ?_ l
    · intro x p h
      exact not_lt.mp fun hlt => h ((utilCompare_asc_lt x p).mpr hlt)
    · intro x y h
      exact ((utilCompare_asc_lt x y).mp h).le
    · intro x y s h hys
      exact ((utilCompare_asc_lt x y).mp h).le.trans hys
    · intro x y h hx
      have hlt := (utilCompare_asc_lt x y).mp h
      simp only [decide_eq_true_eq] at hx
      simp only [decide_eq_false_iff_not]
      intro he
      rw [← hx] at he
      have he2 : utilKey y = utilKey x := by injection he
      rw [he2] at hlt
      exact absurd hlt (lt_irrefl _)
    · intro x y s h hys hx
      have hlt := (utilCompare_asc_lt x y).mp h
      simp only [decide_eq_true_eq] at hx
      simp only [decide_eq_false_iff_not]
      intro he
      rw [← hx] at he
      have he2 : utilKey s = utilKey x := by injection he
      have hc : keyQ (utilKey x) < keyQ (utilKey s) := lt_of_lt_of_le hlt hys
      rw [he2] at hc
      exact absurd hc (lt_irrefl _)
  · refine sortByC_filter (fun a b => utilLe b a) _ ?_ ?_ ?_ ?_ ?_ l
    · intro x p h
      rw [utilCompare_desc_swap] at h
      exact not_lt.mp fun hlt => h ((utilCompare_asc_lt p x).mpr hlt)
    · intro x y h
      rw [utilCompare_desc_swap] at h
      exact ((utilCompare_asc_lt y x).mp h).le
    · intro x y s h hys
      rw [utilCompare_desc_swap] at h
      exact hys.trans ((utilCompare_asc_lt y x).mp h).le
    · intro x y h hx
      rw [utilCompare_desc_swap] at h
      have hlt := (utilCompare_asc_lt y x).mp h
      simp only [decide_eq_true_eq] at hx
      simp only [decide_eq_false_iff_not]
      intro he
      rw [← hx] at he
      have he2 : utilKey y = utilKey x := by injection he
      rw [he2] at hlt
      exact absurd hlt (lt_irrefl _)
    · intro x y s h hys hx
      rw [utilCompare_desc_swap] at h
      have hlt := (utilCompare_asc_lt y x).mp h
      simp only [decide_eq_true_eq] at hx
      simp only [decide_eq_false_iff_not]
      intro he
      rw [← hx] at he
      have he2 : utilKey s = utilKey x := by injection he
      have hc : keyQ (utilKey s) < keyQ (utilKey x) := lt_of_le_of_lt hys hlt
      rw [he2] at hc
      exact absurd hc (lt_irrefl _)

theorem sortByC_filter_strC (dir : Dir) (f : Row → List Char) (l : List Row)
    (k : SortKey) :
    (sortByC (fun a b => strCompare dir (f a) (f b)) l).filter
        (fun r => SortKey.strK (f r) = k) =
      l.filter (fun r => SortKey.strK (f r) = k) := by
  cases dir
  · refine sortByC_filter (fun a b => strLe (f a) (f b)) _ ?_ ?_ ?_ ?_ ?_ l
    · intro x p h
      show lexLt (f x) (f p) = false
      by_contra hc
      exact h ((strCompare_asc_lt _ _).mpr (Bool.of_not_eq_false hc))
    · intro x y h
      exact lexLt_asymm _ _ ((strCompare_asc_lt _ _).mp h)
    · intro x y s h hys
      have hxy := (strCompare_asc_lt _ _).mp h
      show lexLt (f s) (f x) = false
      by_contra hc
      have hsy := lexLt_trans _ _ _ (Bool.of_not_eq_false hc) hxy
      rw [hys] at hsy
      exact Bool.false_ne_true hsy
    · intro x y h hx
      have hxy := (strCompare_asc_lt _ _).mp h
      simp only [decide_eq_true_eq] at hx
      simp only [decide_eq_false_iff_not]
      intro he
      rw [← hx] at he
      have he2 : f y = f x := by injection he
      rw [he2, lexLt_irrefl] at hxy
      exact Bool.false_ne_true hxy
    · intro x y s h hys hx
      have hxy := (strCompare_asc_lt _ _).mp h
      simp only [decide_eq_true_eq] at hx
      simp only [decide_eq_false_iff_not]
      intro he
      rw [← hx] at he
      have he2 : f s = f x := by injection he
      have hys2 : lexLt (f s) (f y) = false := hys
      rw [he2, hxy] at hys2
      exact Bool.false_ne_true hys2.symm
  · refine sortByC_filter (fun a b => strLe (f b) (f a)) _ ?_ ?_ ?_ ?_ ?_ l
    · intro x p h
      show lexLt (f p) (f x) = false
      by_contra hc
      refine h ?_
      show strCompare .desc (f x) (f p) < 0
      rw [strCompare_desc_swap]
      exact (strCompare_asc_lt _ _).mpr (Bool.of_not_eq_false hc)
    · intro x y h
      rw [strCompare_desc_swap] at h
      exact lexLt_asymm _ _ ((strCompare_asc_lt _ _).mp h)
    · intro x y s h hys
      rw [strCompare_desc_swap] at h
      have hyx := (strCompare_asc_lt _ _).mp h
      show lexLt (f x) (f s) = false
      by_contra hc
      have hsy := lexLt_trans _ _ _ hyx (Bool.of_not_eq_false hc)
      have hys2 : lexLt (f y) (f s) = false := hys
      rw [hys2] at hsy
      exact Bool.false_ne_true hsy
    · intro x y h hx
      rw [strCompare_desc_swap] at h
      have hyx := (strCompare_asc_lt _ _).mp h
      simp only [decide_eq_true_eq] at hx
      simp only [decide_eq_false_iff_not]
      intro he
      rw [← hx] at he
      have he2 : f y = f x := by injection he
      rw [he2, lexLt_irrefl] at hyx
      exact Bool.false_ne_true hyx
    · intro x y s h hys hx
      rw [strCompare_desc_swap] at h
      have hyx := (strCompare_asc_lt _ _).mp h
      simp only [decide_eq_true_eq] at hx
      simp only [decide_eq_false_iff_not]
      intro he
      rw [← hx] at he
      have he2 : f s = f x := by injection he
      have hys2 : lexLt (f y) (f s) = false := hys
      rw [he2, hyx] at hys2
      exact Bool.false_ne_true hys2.symm

theorem dateSub_invalid_left (d : DateVal) : dateSub .invalid d = 0 := by
  cases d <;> rfl

theorem dateSub_invalid_right (d : DateVal) : dateSub d .invalid = 0 := by
  cases d <;> rfl

theorem rowDateValid_stamp {r : Row} (h : rowDateValid r = true) :
    rowDate r = .time (specStamp r) := by
  unfold rowDateValid at h
  cases hp : parseDateStr r.usage_date r.usage_time with
  | none =>
    have h0 : rowDate r = .time 0 := by
      unfold rowDate
      rw [hp]
      rfl
    rw [h0]
    unfold specStamp
    rw [hp]
  | some d =>
    cases d with
    | invalid =>
      have h0 : rowDate r = .invalid := by
        unfold rowDate
        rw [hp]
        rfl
      rw [h0] at h
      simp at h
    | time t =>
      have h0 : rowDate r = .time t := by
        unfold rowDate
        rw [hp]
        rfl
      rw [h0]
      unfold specStamp
      rw [hp]

/-- Claim C7 (amended): sorting descending is the exact reverse of sorting
ascending whenever the active comparator has no ties on the row set; and the
sort is stable with respect to the comparator's own key classes (`colKey`):
filtering by any key value commutes with sorting. (As frozen — stability with
respect to the specification's keys, where an unparsable date keys as the
epoch — the claim fails, because the comparator treats an unparsable date as
tied with every row rather than as the epoch; see the counterexample.) -/
theorem C7_sort_reversal_and_stability :
    (∀ (col : Col) (l : List Row),
      l.Pairwise (fun a b => cmpRow col Dir.asc a b ≠ 0) →
        sortData l col Dir.desc = (sortData l col Dir.asc).reverse) ∧
    (∀ (col : Col) (dir : Dir) (l : List Row) (k : SortKey),
      (sortData l col dir).filter (fun r => colKey col r = k) =
        l.filter (fun r => colKey col r = k)) := by
  constructor
  · intro col l H
    have hswap : cmpRow col .desc = fun a b => cmpRow col .asc b a :=
      funext fun a => funext fun b => cmpRow_desc_swap col a b
    show sortByC (cmpRow col .desc) l = (sortByC (cmpRow col .asc) l).reverse
    rw [hswap]
    exact sortByC_swap_reverse (cmpRow_asc_anti col) (cmpRow_asc_trans col) H
  · intro col dir l k
    cases col
    · exact sortByC_filter_dateC dir l k
    · exact sortByC_filter_dateC dir l k
    · exact sortByC_filter_utilC dir l k
    · exact sortByC_filter_strC dir (fun r => lowerStr r.system_name) l k
    · exact sortByC_filter_strC dir (fun r => lowerStr r.department_name) l k

/-- Claim C7 as frozen is false on the code: with rows dated 2024-01-05,
2024-01-06, an unparsable date, and 1970-01-01 (in that order), sorting by
date ascending moves the epoch row in front of the unparsable row, although
both have the specification's epoch key and the unparsable row came first. -/
theorem C7_counterexample : ¬ claimC7Prop := fun h =>
  absurd
    (h.2 Col.usage_date Dir.asc [rowJan5, rowJan6, rowBadDate, rowEpoch]
      (SortKey.dateK (DateVal.time 0)))
    (by decide)

/-- Witness for C7: two rows with distinct utilization keys satisfy the
no-ties hypothesis, and descending sort is the reverse of ascending sort. -/
theorem C7_witness :
    ([rowPct10, rowPct25] : List Row).Pairwise
        (fun a b => cmpRow Col.utilization_pct Dir.asc a b ≠ 0) ∧
    sortData [rowPct10, rowPct25] Col.utilization_pct Dir.desc =
      (sortData [rowPct10, rowPct25] Col.utilization_pct Dir.asc).reverse := by
  have hp : ([rowPct10, rowPct25] : List Row).Pairwise
      (fun a b => cmpRow Col.utilization_pct Dir.asc a b ≠ 0) := by decide
  exact ⟨hp, C7_sort_reversal_and_stability.1 Col.utilization_pct _ hp⟩

/-- Claim C6 (confirmed): under ascending `utilization_pct` sort, no row
whose utilization coerces to a finite number precedes a row whose utilization
coerces to NaN — every NaN row appears before every finite-valued row. -/
theorem C6_invalid_utilization_sorts_first (l : List Row) :
    (sortData l Col.utilization_pct Dir.asc).Pairwise
      (fun a b => ¬ ((∃ q, toNumber a.utilization_pct = JSNum.fin q) ∧
        toNumber b.utilization_pct = JSNum.nan)) := by
  have hT : (sortData l Col.utilization_pct Dir.asc).Pairwise utilLe := by
    refine sortByC_pairwise utilLe ?_ ?_ ?_ l
    · intro x p h
      exact not_lt.mp fun hlt => h ((utilCompare_asc_lt x p).mpr hlt)
    · intro x y h
      exact ((utilCompare_asc_lt x y).mp h).le
    · intro x y s h hys
      exact ((utilCompare_asc_lt x y).mp h).le.trans hys
  refine hT.imp ?_
  intro a b hab hcon
  rcases hcon with ⟨⟨q, hq⟩, hb⟩
  have ha2 : utilKey a = .fin q := by
    unfold utilKey
    rw [hq]
  have hb2 : utilKey b = .negInf := by
    unfold utilKey
    rw [hb]
  unfold utilLe at hab
  rw [ha2, hb2] at hab
  simp [keyQ] at hab

/-- Claim C1 (amended): the chart adapter receives exactly the rows in the
user-selected sort order — the same sequence the table renders — both in the
apply-filters cycle and on a header click; its output is chronologically
ascending when the active sort is the date column ascending and every row has
a parsable (or empty, epoch-defaulted) date. The frozen claim, that the chart
is chronologically ascending for every sort state, fails; see the
counterexample. -/
theorem C1_chart_follows_table_order :
    (∀ (raw : List RawRecord) (fromStr toStr : String) (col : Col) (dir : Dir)
        (st : UIState),
      (applyFiltersAndRender (some raw) fromStr toStr col dir st).chart =
        some (renderChart
          (sortData (dateFilter fromStr toStr (raw.map normalize)) col dir)) ∧
      (applyFiltersAndRender (some raw) fromStr toStr col dir st).tableHTML =
        renderTable
          (sortData (dateFilter fromStr toStr (raw.map normalize)) col dir)) ∧
    (∀ (rows : List Row) (col : Col) (prev : Option Dir) (st : UIState),
      (headerClick rows col prev st).chart =
        some (renderChart (sortData rows col (nextDir prev))) ∧
      (headerClick rows col prev st).tableHTML =
        renderTable (sortData rows col (nextDir prev))) ∧
    (∀ rows : List Row, (∀ r ∈ rows, rowDateValid r = true) →
      List.Chain' (fun a b => specStamp a ≤ specStamp b)
        (renderChart (sortData rows Col.usage_date Dir.asc)).rows) := by
  refine ⟨fun raw f t col dir st => ⟨rfl, rfl⟩,
    fun rows col prev st => ⟨rfl, rfl⟩, ?_⟩
  intro rows hval
  have hT : (sortData rows Col.usage_date Dir.asc).Pairwise dateLe := by
    refine sortByC_pairwise dateLe ?_ ?_ ?_ rows
    · intro x p h tp tx hp hx
      by_contra hc
      exact h ((dateCompare_asc_lt x p).mpr ⟨tx, tp, hx, hp, by omega⟩)
    · intro x y h ta tb ha hb
      rcases (dateCompare_asc_lt x y).mp h with ⟨tx, ty, hx, hy, hlt⟩
      have e1 := time_inj (ha.symm.trans hx)
      have e2 := time_inj (hb.symm.trans hy)
      omega
    · intro x y s h hys ta ts ha hs
      rcases (dateCompare_asc_lt x y).mp h with ⟨tx, ty, hx, hy, hlt⟩
      have e1 := time_inj (ha.symm.trans hx)
      have e2 := hys ty ts hy hs
      omega
  have hmem : ∀ r ∈ sortData rows Col.usage_date Dir.asc, rowDateValid r = true :=
    fun r hr => hval r ((sortByC_perm _ rows).subset hr)
  have hP : (sortData rows Col.usage_date Dir.asc).Pairwise
      (fun a b => specStamp a ≤ specStamp b) := by
    refine List.Pairwise.imp_of_mem ?_ hT
    intro a b ha hb hab
    exact hab _ _ (rowDateValid_stamp (hmem a ha)) (rowDateValid_stamp (hmem b hb))
  exact hP.chain'

/-- Claim C1 as frozen is false on the code: sorting two rows by date
descending hands the chart the rows in descending date order, so its label
and value sequences are not chronologically ascending. -/
theorem C1_counterexample : ¬ claimC1Prop := by
  intro h
  have hc := h [rowJan2, rowJan1] Col.usage_date Dir.desc
  rw [show sortData [rowJan2, rowJan1] Col.usage_date Dir.desc = [rowJan2, rowJan1]
    from by decide] at hc
  have hc2 : List.Chain' (fun a b => specStamp a ≤ specStamp b)
      [rowJan2, rowJan1] := hc
  have hle : specStamp rowJan2 ≤ specStamp rowJan1 := (List.chain'_cons.mp hc2).1
  exact absurd hle (by decide)

/-- Witness for C1: two concretely dated rows satisfy the parsable-dates
hypothesis, and the date-ascending chart order is chronologically ascending. -/
theorem C1_witness :
    (∀ r ∈ ([rowJan1, rowJan2] : List Row), rowDateValid r = true) ∧
    List.Chain' (fun a b => specStamp a ≤ specStamp b)
      (renderChart (sortData [rowJan1, rowJan2] Col.usage_date Dir.asc)).rows := by
  have hv : ∀ r ∈ ([rowJan1, rowJan2] : List Row), rowDateValid r = true := by
    decide
  exact ⟨hv, C1_chart_follows_table_order.2.2 _ hv⟩

theorem dateLt_invalid_left (d : DateVal) : dateLt .invalid d = false := by
  cases d <;> rfl

theorem dateLt_invalid_right (d : DateVal) : dateLt d .invalid = false := by
  cases d <;> rfl

theorem jsNewDate_str (s : String) :
    jsNewDate (.str s) =
      (match parseTimestampStr s with
       | some t => DateVal.time t
       | none => DateVal.invalid) := rfl

theorem rowPasses_truthy {fromD toD : Option DateVal} {r : Row}
    (h : rowPasses fromD toD r = true) : truthy r.usage_date = true := by
  by_contra hc
  have hf : truthy r.usage_date = false := Bool.eq_false_iff.mpr hc
  unfold rowPasses at h
  rw [hf] at h
  simp at h

theorem rowPasses_eq (fromD toD : Option DateVal) {r : Row}
    (htr : truthy r.usage_date = true) :
    rowPasses fromD toD r =
      (!(match fromD with | some f => dateLt (rowDate r) f | none => false) &&
       !(match toD with | some g => dateLt g (rowDate r) | none => false)) := by
  simp only [rowPasses, htr, if_true]
  cases fromD with
  | none =>
    cases toD with
    | none => rfl
    | some g => cases hg : dateLt g (rowDate r) <;> simp [hg]
  | some f =>
    cases toD with
    | none => cases hf : dateLt (rowDate r) f <;> simp [hf]
    | some g =>
      cases hf : dateLt (rowDate r) f <;> cases hg : dateLt g (rowDate r) <;>
        simp [hf, hg]

theorem badRow_rowDate {r : Row} (hbad : badDateRow r) : rowDate r = .invalid := by
  unfold rowDate
  rw [hbad.2]
  rfl

theorem badRow_mem_dateFilter {r : Row} (hbad : badDateRow r)
    (fromStr toStr : String) {rows : List Row} (hin : r ∈ rows) :
    r ∈ dateFilter fromStr toStr rows := by
  refine List.mem_filter.mpr ⟨hin, ?_⟩
  rw [rowPasses_eq _ _ hbad.1, badRow_rowDate hbad]
  have hA : ∀ o : Option DateVal,
      (match o with | some f => dateLt DateVal.invalid f | none => false) = false := by
    intro o
    cases o with
    | none => rfl
    | some f => exact dateLt_invalid_left f
  have hB : ∀ o : Option DateVal,
      (match o with | some g => dateLt g DateVal.invalid | none => false) = false := by
    intro o
    cases o with
    | none => rfl
    | some g => exact dateLt_invalid_right g
  rw [hA, hB]
  rfl

theorem fromCheck_eq (s : String) (t : Int) :
    (match (if s ≠ "" then some (jsNewDate (.str (s ++ "T00:00:00"))) else none) with
     | some f => dateLt (DateVal.time t) f
     | none => false) =
    !(match parseTimestampStr (s ++ "T00:00:00") with
      | some f => decide (f ≤ t)
      | none => true) := by
  by_cases hs : s = ""
  · subst hs
    rw [if_neg (by simp)]
    rw [show parseTimestampStr ("" ++ "T00:00:00") = none from by decide]
    rfl
  · rw [if_pos hs]
    show dateLt (DateVal.time t) (jsNewDate (.str (s ++ "T00:00:00"))) = _
    rw [jsNewDate_str]
    cases hp : parseTimestampStr (s ++ "T00:00:00") with
    | none => rfl
    | some f =>
      show decide (t < f) = !decide (f ≤ t)
      by_cases h : f ≤ t
      · simp [h, not_lt.mpr h]
      · simp [h, not_le.mp h]

theorem toCheck_eq (s : String) (t : Int) :
    (match (if s ≠ "" then some (jsNewDate (.str (s ++ "T23:59:59"))) else none) with
     | some g => dateLt g (DateVal.time t)
     | none => false) =
    !(match parseTimestampStr (s ++ "T23:59:59") with
      | some g => decide (t ≤ g)
      | none => true) := by
  by_cases hs : s = ""
  · subst hs
    rw [if_neg (by simp)]
    rw [show parseTimestampStr ("" ++ "T23:59:59") = none from by decide]
    rfl
  · rw [if_pos hs]
    show dateLt (jsNewDate (.str (s ++ "T23:59:59"))) (DateVal.time t) = _
    rw [jsNewDate_str]
    cases hp : parseTimestampStr (s ++ "T23:59:59") with
    | none => rfl
    | some g =>
      show decide (g < t) = !decide (t ≤ g)
      by_cases h : t ≤ g
      · simp [h, not_lt.mpr h]
      · simp [h, not_le.mp h]

/-- Claim C2 (amended): a row with a non-empty but unparsable combined
date+time is NOT treated as the epoch. Its Invalid Date compares equal (0)
with every row under the date/time comparator in both directions — so the
stable sort leaves it in place relative to every row — and the date-range
filter always includes it, whatever the bounds, because NaN comparisons with
the bounds are false. -/
theorem C2_unparsable_ties_and_always_included :
    ∀ r : Row, badDateRow r →
      (∀ (b : Row) (dir : Dir),
        cmpRow Col.usage_date dir r b = 0 ∧ cmpRow Col.usage_date dir b r = 0 ∧
        cmpRow Col.usage_time dir r b = 0 ∧ cmpRow Col.usage_time dir b r = 0) ∧
      (∀ (fromStr toStr : String) (rows : List Row), r ∈ rows →
        r ∈ dateFilter fromStr toStr rows) := by
  intro r hbad
  have hinv : rowDate r = .invalid := badRow_rowDate hbad
  constructor
  · intro b dir
    have h1 : dateCompare dir r b = 0 := by
      cases dir
      · show dateSub (rowDate r) (rowDate b) = 0
        rw [hinv]
        exact dateSub_invalid_left _
      · show dateSub (rowDate b) (rowDate r) = 0
        rw [hinv]
        exact dateSub_invalid_right _
    have h2 : dateCompare dir b r = 0 := by
      cases dir
      · show dateSub (rowDate b) (rowDate r) = 0
        rw [hinv]
        exact dateSub_invalid_right _
      · show dateSub (rowDate r) (rowDate b) = 0
        rw [hinv]
        exact dateSub_invalid_left _
    exact ⟨h1, h2, h1, h2⟩
  · intro fromStr toStr rows hin
    exact badRow_mem_dateFilter hbad fromStr toStr hin

/-- Claim C2 as frozen is false on the code: an unparsable non-empty date
does not sort to the earliest position (it stays behind a 2024 row under
ascending date sort although its claimed epoch key is smaller), and the
filter includes it even when the lower bound excludes the epoch. -/
theorem C2_counterexample : ¬ claimC2Prop := by
  intro h
  have h2 := (h rowBadDate ⟨by decide, by decide⟩).2 "2024-01-02" "" [rowBadDate]
    (by simp)
  have hmem : rowBadDate ∈ dateFilter "2024-01-02" "" [rowBadDate] := by decide
  exact absurd (h2.mp hmem) (by decide)

/-- Witness for C2: the concrete unparsable-date row ties with a dated row
under the comparator and passes a filter whose lower bound is 2024-01-02. -/
theorem C2_witness :
    badDateRow rowBadDate ∧
    cmpRow Col.usage_date Dir.asc rowBadDate rowJan1 = 0 ∧
    rowBadDate ∈ dateFilter "2024-01-02" "2024-01-05" [rowJan1, rowBadDate] := by
  have hb : badDateRow rowBadDate := ⟨by decide, by decide⟩
  exact ⟨hb,
    ((C2_unparsable_ties_and_always_included rowBadDate hb).1 rowJan1 Dir.asc).1,
    (C2_unparsable_ties_and_always_included rowBadDate hb).2 "2024-01-02"
      "2024-01-05" [rowJan1, rowBadDate] (by simp)⟩

/-- Claim C4 (amended): for rows whose combined date+time parses to a
timestamp (or whose empty date defaults to the epoch), membership in the
filter output is exactly non-empty `usage_date` plus the inclusive
`[from 00:00:00, to 23:59:59]` window test; a row with a non-empty
unparsable date is always included; a row with a falsy `usage_date` never
is. Scenario C holds: `from = to = "2024-01-02"` keeps the 2024-01-02 row
and drops the 2024-01-01 row. -/
theorem C4_filter_characterization (rows : List Row) (fromStr toStr : String)
    (r : Row) :
    (∀ t, rowDate r = .time t →
      (r ∈ dateFilter fromStr toStr rows ↔
        (r ∈ rows ∧ truthy r.usage_date = true ∧
          specWindow fromStr toStr t = true))) ∧
    (badDateRow r → (r ∈ dateFilter fromStr toStr rows ↔ r ∈ rows)) ∧
    (truthy r.usage_date = false → r ∉ dateFilter fromStr toStr rows) ∧
    dateFilter "2024-01-02" "2024-01-02" [rowJan1, rowJan2] = [rowJan2] := by
  refine ⟨?_, ?_, ?_, by decide⟩
  · intro t ht
    constructor
    · intro hmem
      have h2 := List.mem_filter.mp hmem
      have htr : truthy r.usage_date = true := rowPasses_truthy h2.2
      refine ⟨h2.1, htr, ?_⟩
      have h3 := h2.2
      rw [rowPasses_eq _ _ htr, ht, fromCheck_eq, toCheck_eq] at h3
      simpa only [Bool.not_not, specWindow] using h3
    · rintro ⟨hin, htr, hwin⟩
      refine List.mem_filter.mpr ⟨hin, ?_⟩
      rw [rowPasses_eq _ _ htr, ht, fromCheck_eq, toCheck_eq]
      simpa only [Bool.not_not, specWindow] using hwin
  · intro hbad
    exact ⟨fun hmem => (List.mem_filter.mp hmem).1,
      fun hin => badRow_mem_dateFilter hbad fromStr toStr hin⟩
  · intro hf hmem
    have := rowPasses_truthy (List.mem_filter.mp hmem).2
    rw [hf] at this
    exact Bool.false_ne_true this

/-- Claim C4 as frozen is false on the code: a row with the non-empty
unparsable date "zzz" is included by the filter although its combined
timestamp (the epoch, per the specification) lies below the lower bound
2024-01-02. -/
theorem C4_counterexample : ¬ claimC4Prop := by
  intro h
  have h2 := (h [rowBadDate] "2024-01-02" "" (by simp) rowBadDate).mp (by decide)
  exact absurd h2.2.2 (by decide)

/-- Witness for C4: the 2024-01-02 row's parsable timestamp discharges the
hypothesis, and its filter membership matches the window test. -/
theorem C4_witness :
    rowDate rowJan2 = DateVal.time 1704189600000 ∧
    (rowJan2 ∈ dateFilter "2024-01-02" "2024-01-02" [rowJan1, rowJan2] ↔
      (rowJan2 ∈ [rowJan1, rowJan2] ∧ truthy rowJan2.usage_date = true ∧
        specWindow "2024-01-02" "2024-01-02" 1704189600000 = true)) := by
  have hd : rowDate rowJan2 = DateVal.time 1704189600000 := by decide
  exact ⟨hd,
    (C4_filter_characterization [rowJan1, rowJan2] "2024-01-02" "2024-01-02"
      rowJan2).1 1704189600000 hd⟩

/-- Claim C5 (amended): on a fetch failure or non-array response, the
operation blanks exactly four summary cards (total, average, max, min) and
writes the failure placeholder row into the table; the systems and
departments cards and the chart keep their previous state. The frozen claim
that all six cards are blanked is false; see the counterexample. -/
theorem C5_failure_renders (fromStr toStr : String) (col : Col) (dir : Dir)
    (st : UIState) :
    applyFiltersAndRender none fromStr toStr col dir st =
      { st with
        cardTotal := "—"
        cardAvg := "—"
        cardMax := "—"
        cardMin := "—"
        tableHTML := failureHTML } := rfl

/-- Claim C5 as frozen is false on the code: after a failure, the systems
card still shows its previous value ("5"), not a blank. -/
theorem C5_counterexample : ¬ claimC5Prop := by
  intro h
  have h5 := (h "" "" Col.usage_date Dir.asc stBefore).2.2.2.2.1
  exact absurd h5 (by decide)

theorem round_fin (q : ℚ) :
    round (.fin q) 2 = .fin (((⌊q * 100 + 1/2⌋ : ℤ) : ℚ) / 100) := by
  have h100 : ((10 : ℚ) ^ 2) = 100 := by norm_num
  simp only [round, h100, JSNum.mul, mathRound, JSNum.div]
  norm_num

theorem cardsAcc_sum (data : List Row) :
    ∀ acc : CardsAcc, (data.foldl cardsStep acc).sum =
      data.foldl
        (fun s r => let v := toNumber r.utilization_pct
                    if v ≠ .nan then s.add v else s) acc.sum := by
  induction data with
  | nil => intro acc; rfl
  | cons r rs ih =>
    intro acc
    rw [List.foldl_cons, List.foldl_cons, ih]
    congr 1
    by_cases hv : toNumber r.utilization_pct ≠ .nan
    · simp [cardsStep, hv]
    · simp [cardsStep, hv]

theorem specNonNanSum_eq (data : List Row) :
    (data.foldl cardsStep ⟨[], [], .fin 0, none, none⟩).sum = specNonNanSum data := by
  rw [cardsAcc_sum]
  rfl

/-- Claim C3 (amended): the aggregator's average is the sum of the
utilization values that coerce to a number other than NaN (infinite
coercions included and propagated), divided by the full row count and
rounded to two decimals; scenario B holds: pct values 10, "bad", 30 give
total 3, avg 13.33, max 30, min 10. The frozen restriction to values that
coerce to a *finite* number is false; see the counterexample. -/
theorem C3_avg_formula :
    (∀ data : List Row, 0 < data.length →
      (computeCards data).avg =
        round ((specNonNanSum data).div (.fin (data.length : ℚ))) 2) ∧
    ((computeCards [rowPct10, rowPctBad, rowPct30]).total = 3 ∧
     (computeCards [rowPct10, rowPctBad, rowPct30]).avg = .fin (1333/100) ∧
     (computeCards [rowPct10, rowPctBad, rowPct30]).max = .fin 30 ∧
     (computeCards [rowPct10, rowPctBad, rowPct30]).min = .fin 10) := by
  constructor
  · intro data hlen
    have h1 : (computeCards data).avg =
        round ((data.foldl cardsStep ⟨[], [], .fin 0, none, none⟩).sum.div
          (.fin (data.length : ℚ))) 2 := by
      simp only [computeCards, if_pos hlen]
    rw [h1, specNonNanSum_eq]
  · have hb : toNumber (JSValue.str "bad") = .nan := by decide
    refine ⟨by decide, ?_, ?_, ?_⟩ <;>
    · simp +decide only [computeCards, List.foldl, cardsStep, rowPct10, rowPctBad,
        rowPct30, rowJan1, hb, toNumber, JSNum.add, JSNum.lt, List.length_cons,
        List.length_nil, setAdd]
      norm_num [round_fin, JSNum.div]

/-- Claim C3 as frozen is false on the code: the aggregator's guard is
`!isNaN(v)`, which admits infinite coercions; a single row whose utilization
is the string "Infinity" makes the code's average Infinity, while the
claimed finite-only sum would give 0. -/
theorem C3_counterexample : ¬ claimC3Prop := by
  intro h
  have h1 := h [rowPctInf] (by decide)
  have hi : toNumber (JSValue.str "Infinity") = .posInf := by decide
  have hL : (computeCards [rowPctInf]).avg = .posInf := by
    simp +decide only [computeCards, List.foldl, cardsStep, rowPctInf, rowJan1, hi,
      JSNum.add, List.length_cons, List.length_nil, setAdd]
  have hs : specFinSum [rowPctInf] = 0 := by decide
  rw [hL, hs] at h1
  have hR : round (.fin ((0 : ℚ) / ((([rowPctInf] : List Row)).length : ℚ))) 2 =
      .fin 0 := by
    norm_num [round_fin]
  rw [hR] at h1
  exact absurd h1 (by decide)

/-- Witness for C3: the scenario-B row set has positive length, and the
average equals the rounded non-NaN sum divided by the row count. -/
theorem C3_witness :
    0 < ([rowPct10, rowPctBad, rowPct30] : List Row).length ∧
    (computeCards [rowPct10, rowPctBad, rowPct30]).avg =
      round ((specNonNanSum [rowPct10, rowPctBad, rowPct30]).div
        (.fin (([rowPct10, rowPctBad, rowPct30] : List Row).length : ℚ))) 2 :=
  ⟨by decide, C3_avg_formula.1 [rowPct10, rowPctBad, rowPct30] (by decide)⟩

/-- Claim C9 (amended): `round(n, 2)` is `Math.round(n*100)/100`, i.e.
half-up toward positive infinity at the second decimal; this agrees with
round-half-away-from-zero exactly for non-negative inputs. The frozen claim
that it is half-away-from-zero for every rational fails at −0.015; see the
counterexample. -/
theorem C9_round_half_up :
    (∀ q : ℚ, round (.fin q) 2 = .fin (((⌊q * 100 + 1/2⌋ : ℤ) : ℚ) / 100)) ∧
    (∀ q : ℚ, 0 ≤ q → round (.fin q) 2 = .fin (specRound2 q)) := by
  refine ⟨round_fin, ?_⟩
  intro q hq
  rw [round_fin]
  rcases eq_or_lt_of_le hq with heq | hpos
  · rw [← heq]
    norm_num [specRound2]
  · rw [specRound2, if_neg (not_lt.mpr hq), if_neg hpos.ne',
      abs_of_pos hpos, one_mul]

/-- Claim C9 as frozen is false on the code: `round(-0.015, 2)` is `-0.01`
(Math.round ties go toward positive infinity), while
round-half-away-from-zero gives `-0.02`. -/
theorem C9_counterexample : ¬ claimC9Prop := by
  intro h
  have h1 := h (-3/200)
  rw [round_fin] at h1
  have hL : (((⌊(-3 : ℚ)/200 * 100 + 1/2⌋ : ℤ) : ℚ) / 100) = -1/100 := by
    norm_num
  have hR : specRound2 ((-3 : ℚ)/200) = -1/50 := by
    rw [specRound2, if_pos (by norm_num : ((-3 : ℚ)/200) < 0),
      abs_of_nonpos (by norm_num)]
    norm_num
  rw [hL, hR] at h1
  have h2 : ((-1 : ℚ)/100) = -1/50 := by injection h1
  norm_num at h2

/-- Witness for C9: at the non-negative input 1 the rounding agrees with the
half-away-from-zero formula. -/
theorem C9_witness :
    (0 : ℚ) ≤ 1 ∧ round (.fin 1) 2 = .fin (specRound2 1) :=
  ⟨by decide, C9_round_half_up.2 1 (by decide)⟩

theorem jsOr_ne_undef {a b : JSValue} (hb : b ≠ .undef) : jsOr a b ≠ .undef := by
  unfold jsOr
  by_cases h : truthy a = true
  · rw [if_pos h]
    intro he
    subst he
    simp [truthy] at h
  · rw [if_neg h]
    exact hb

/-- Claim C8 (confirmed): the normalizer maps every raw record to exactly one
row (equal length, none rejected); a missing field becomes its documented
default — empty string for the date, time and (when the fallback is also
missing) name fields, 0 for utilization when both `utilization_pct` and
`utilization` are missing — and no normalized field is ever `undefined`. -/
theorem C8_normalizer_defaults :
    (∀ rs : List RawRecord, (rs.map normalize).length = rs.length) ∧
    (∀ r : RawRecord,
      (getF r.usage_date = .undef → (normalize r).usage_date = .str "") ∧
      (getF r.usage_time = .undef → (normalize r).usage_time = .str "") ∧
      (getF r.utilization_pct = .undef → getF r.utilization = .undef →
        (normalize r).utilization_pct = .num (.fin 0)) ∧
      (getF r.system_name = .undef → getF r.system = .undef →
        (normalize r).system_name = .str "") ∧
      (getF r.department_name = .undef → getF r.department = .undef →
        (normalize r).department_name = .str "") ∧
      ((normalize r).usage_date ≠ .undef ∧ (normalize r).usage_time ≠ .undef ∧
       (normalize r).utilization_pct ≠ .undef ∧ (normalize r).system_name ≠ .undef ∧
       (normalize r).department_name ≠ .undef)) := by
  refine ⟨fun rs => rs.length_map normalize, ?_⟩
  intro r
  refine ⟨?_, ?_, ?_, ?_, ?_, ?_, ?_, ?_, ?_, ?_⟩
  · intro h
    show jsOr (getF r.usage_date) (.str "") = .str ""
    rw [h]
    rfl
  · intro h
    show jsOr (getF r.usage_time) (.str "") = .str ""
    rw [h]
    rfl
  · intro h1 h2
    show (if getF r.utilization_pct ≠ .undef then getF r.utilization_pct
      else jsOr (getF r.utilization) (.num (.fin 0))) = .num (.fin 0)
    rw [if_neg (by rw [h1]; simp), h2]
    rfl
  · intro h1 h2
    show jsOr (getF r.system_name) (jsOr (getF r.system) (.str "")) = .str ""
    rw [h1, h2]
    rfl
  · intro h1 h2
    show jsOr (getF r.department_name) (jsOr (getF r.department) (.str "")) = .str ""
    rw [h1, h2]
    rfl
  · exact jsOr_ne_undef (by simp)
  · exact jsOr_ne_undef (by simp)
  · show (if getF r.utilization_pct ≠ .undef then getF r.utilization_pct
      else jsOr (getF r.utilization) (.num (.fin 0))) ≠ .undef
    by_cases h : getF r.utilization_pct ≠ .undef
    · rw [if_pos h]
      exact h
    · rw [if_neg h]
      exact jsOr_ne_undef (by simp)
  · exact jsOr_ne_undef (jsOr_ne_undef (by simp))
  · exact jsOr_ne_undef (jsOr_ne_undef (by simp))

/-- Witness for C8: the all-absent record normalizes to the documented
defaults and produces no undefined field. -/
theorem C8_witness :
    getF emptyRaw.usage_date = .undef ∧
    (normalize emptyRaw).usage_date = .str "" ∧
    getF emptyRaw.utilization_pct = .undef ∧ getF emptyRaw.utilization = .undef ∧
    (normalize emptyRaw).utilization_pct = .num (.fin 0) ∧
    (normalize emptyRaw).usage_date ≠ .undef :=
  ⟨by decide, (C8_normalizer_defaults.2 emptyRaw).1 (by decide), by decide, by decide,
    (C8_normalizer_defaults.2 emptyRaw).2.2.1 (by decide) (by decide),
    (C8_normalizer_defaults.2 emptyRaw).2.2.2.2.2.1⟩

/-- Claim C10 (confirmed): a present-but-falsy `usage_date`/`usage_time` is
replaced by the empty string; a present-but-falsy `system_name` or
`department_name` falls back to `system`/`department` then the empty string;
but a present `utilization_pct` other than `undefined` — including null, the
empty string and 0 — is kept verbatim (the `!== undefined` test, not
truthiness). -/
theorem C10_normalizer_falsy_handling :
    ∀ (r : RawRecord) (v : JSValue),
      (r.usage_date = some v → truthy v = false →
        (normalize r).usage_date = .str "") ∧
      (r.usage_time = some v → truthy v = false →
        (normalize r).usage_time = .str "") ∧
      (r.system_name = some v → truthy v = false →
        (normalize r).system_name = jsOr (getF r.system) (.str "")) ∧
      (r.department_name = some v → truthy v = false →
        (normalize r).department_name = jsOr (getF r.department) (.str "")) ∧
      (r.utilization_pct = some v → v ≠ .undef →
        (normalize r).utilization_pct = v) := by
  intro r v
  refine ⟨?_, ?_, ?_, ?_, ?_⟩
  · intro h hf
    show jsOr (getF r.usage_date) (.str "") = .str ""
    rw [h]
    show jsOr v (.str "") = .str ""
    unfold jsOr
    rw [hf]
    rfl
  · intro h hf
    show jsOr (getF r.usage_time) (.str "") = .str ""
    rw [h]
    show jsOr v (.str "") = .str ""
    unfold jsOr
    rw [hf]
    rfl
  · intro h hf
    show jsOr (getF r.system_name) (jsOr (getF r.system) (.str "")) = _
    rw [h]
    show jsOr v (jsOr (getF r.system) (.str "")) = _
    unfold jsOr
    rw [hf]
    rfl
  · intro h hf
    show jsOr (getF r.department_name) (jsOr (getF r.department) (.str "")) = _
    rw [h]
    show jsOr v (jsOr (getF r.department) (.str "")) = _
    unfold jsOr
    rw [hf]
    rfl
  · intro h hne
    show (if getF r.utilization_pct ≠ .undef then getF r.utilization_pct
      else jsOr (getF r.utilization) (.num (.fin 0))) = v
    rw [h]
    show (if v ≠ .undef then v else jsOr (getF r.utilization) (.num (.fin 0))) = v
    rw [if_pos hne]

/-- Witness for C10: a record with a present null `usage_date` normalizes it
to the empty string, while its present empty-string `utilization_pct` is
kept verbatim. -/
theorem C10_witness :
    rawFalsy.usage_date = some JSValue.nullv ∧ truthy JSValue.nullv = false ∧
    (normalize rawFalsy).usage_date = .str "" ∧
    rawFalsy.utilization_pct = some (JSValue.str "") ∧
    (JSValue.str "") ≠ JSValue.undef ∧
    (normalize rawFalsy).utilization_pct = .str "" :=
  ⟨rfl, by decide,
    (C10_normalizer_falsy_handling rawFalsy JSValue.nullv).1 rfl (by decide),
    rfl, by decide,
    (C10_normalizer_falsy_handling rawFalsy (JSValue.str "")).2.2.2.2 rfl (by decide)⟩

end Dashboard
